import Mathlib

/-!
# Lunacy: keybinding extraction and description resolution

A shallow embedding of `main.go` of Lunacy, a viewer for LeftWM keybindings.

Conventions of the embedding.

* A Go `string` is a Lean `String`; the text algorithms work on its list of
  characters (`String.data`), one `Char` per decoded rune.
* The regular expression of `parseConfig` is a concatenation of literals and
  of capture groups that repeat one character class.  It is written down as
  such a list (`re`) and run by a backtracking matcher, whose first result is
  the leftmost-first match that Go's `regexp` package returns.
* The file system and the line scanner are the environment: `ConfigFile`
  records whether `os.Open` failed, which lines `scanner.Scan` delivered and
  whether `scanner.Err` is set afterwards.  A Go panic is `Except.error`.
* The `tview` table is a row counter and a partial function from positions to
  cells, which is what `SetCell` acts on.
-/

/-! ## Data model -/

/-- One parsed keybinding (`type KeyBind struct`). -/
structure KeyBind where
  Command : String
  Value : String
  Modifier : List String
  Key : String
deriving DecidableEq, Repr

/-- The description table (`var descriptions = map[string]string`), in source
order.  Its keys are pairwise distinct, so a first-hit lookup is the map lookup. -/
def descriptions : List (String × String) := [
  ("Execute", "Execute"),
  ("CloseWindow", "Close Window"),
  ("CloseAllOtherWindows", "Close All Other Windows"),
  ("SoftReload", "Soft Reload"),
  ("MoveToLastWorkspace", "Move to Last Workspace"),
  ("SwapTags", "Swap Tags"),
  ("HardReload", "Hard Reload"),
  ("ToggleFullScreen", "Toggle Fullscreen"),
  ("ToggleMaximized", "Toggle Maximize"),
  ("ToggleSticky", "Toggle Sticky Window"),
  ("GotoTag", "Go to tag"),
  ("ReturnToLastTag", "Return To Last Tag"),
  ("FloatingToTile", "Floating To Tile"),
  ("TileToFloating", "Tile to Floating"),
  ("ToggleFloating", "Toggle Floating"),
  ("MoveWindowUp", "Move Window Up"),
  ("MoveWindowDown", "Move Window Down"),
  ("MoveWindowTop", "Move Window Top"),
  ("SwapWindowTop", "Swap Window Top"),
  ("FocusWindowUp", "Focus Window Up"),
  ("FocusWindowDown", "Focus Window Down"),
  ("FocusWindowTop", "Focus Window Top"),
  ("FocusWorkspaceNext", "Focus Workspace Next"),
  ("FocusWorkspacePrevious", "Focus Workspace Previous"),
  ("MoveWindowToNextTag", "Move Window To Next Tag"),
  ("MoveWindowToPreviousTag", "Move Window To Previous Tag"),
  ("MoveWindowToNextWorkspace", "Move Window To Next Workspace"),
  ("MoveWindowToPreviousWorkspace", "Move Window To Next Workspace"),
  ("NextLayout", "Next Layout"),
  ("PreviousLayout", "Previous Layout"),
  ("IncreaseMainSize", "Increase Main Size"),
  ("DecreaseMainSize", "Decrease Main Size"),
  ("IncreaseMainCount", "Decrease Main Count"),
  ("DecreaseMainCount", "Decrease Main Count"),
  ("UnloadTheme", "Unload Theme")]

/-- The function `getDescription(command, value string) string`. -/
def getDescription (command value : String) : String :=
  if command = "MoveToTag" then "Move to Tag " ++ value
  else if command = "GotoTag" then "Go to Tag " ++ value
  else if command = "Execute" then "Execute " ++ value
  else
    match descriptions.lookup command with
    | some description => description
    | none => command

/-! ## Library functions used by `parseConfig` and `main` -/

namespace unicode

/-- Go's `unicode.IsSpace`: the code points with the White_Space property. -/
def IsSpace (r : Char) : Bool :=
  let n := r.toNat
  (0x09 ≤ n && n ≤ 0x0d) || n == 0x20 || n == 0x85 || n == 0xA0 || n == 0x1680 ||
    (0x2000 ≤ n && n ≤ 0x200a) || n == 0x2028 || n == 0x2029 || n == 0x202f ||
    n == 0x205f || n == 0x3000

end unicode

namespace strings

/-- Pieces of `s` between occurrences of the one-character separator `sep`:
`strings.Split(s, sep)`; `n` separators give `n + 1` pieces. -/
def splitChars (sep : Char) : List Char → List (List Char)
  | [] => [[]]
  | c :: cs =>
    if c = sep then [] :: splitChars sep cs
    else
      match splitChars sep cs with
      | [] => [[c]]
      | piece :: pieces => (c :: piece) :: pieces

/-- The call `strings.Split(s, ",")` of the source. -/
def Split (s : String) (sep : Char) : List String :=
  (splitChars sep s.data).map String.mk

/-- The call `strings.ReplaceAll(s, old, new)` for a one-character `old`:
every occurrence of `old` is replaced by `new`. -/
def ReplaceAll (s : String) (old : Char) (new : String) : String :=
  String.mk (s.data.flatMap (fun c => if c = old then new.data else [c]))

/-- Go's `strings.TrimSpace`: drop the leading and the trailing white space. -/
def TrimSpace (s : String) : String :=
  String.mk ((s.data.dropWhile unicode.IsSpace).rdropWhile unicode.IsSpace)

/-- Go's `strings.Join(elems, sep)`. -/
def Join (elems : List String) (sep : String) : String :=
  sep.intercalate elems

end strings

/-! ## The regular expression and its matcher -/

namespace regexp

/-- One factor of a pattern that is a concatenation of literals and of
capture groups repeating a character class. -/
inductive Item where
  /-- A literal text. -/
  | lit (s : List Char)
  /-- A group `(c+)`: one or more, greedy. -/
  | capPlus (cls : Char → Bool)
  /-- A group `(c*)`: zero or more, greedy. -/
  | capStar (cls : Char → Bool)
  /-- A group `(c*?)`: zero or more, preferring fewer. -/
  | capStarLazy (cls : Char → Bool)

/-- What remains to be matched: from the input left, the captures of the
remaining groups and the input after the match. -/
abbrev Cont := List Char → Option (List (List Char) × List Char)

/-- Consume the literal `s` at the head of the input. -/
def stripLit : List Char → List Char → Option (List Char)
  | [], inp => some inp
  | _ :: _, [] => none
  | c :: cs, d :: ds => if c = d then stripLit cs ds else none

/-- Greedy repetition: take one more character when possible, and only when
the rest then fails try the continuation here. -/
def greedyStar (cls : Char → Bool) (k : Cont) :
    List Char → Option (List Char × List (List Char) × List Char)
  | [] => (k []).map (fun r => ([], r))
  | c :: cs =>
    if cls c then
      match greedyStar cls k cs with
      | some (cap, r) => some (c :: cap, r)
      | none => (k (c :: cs)).map (fun r => ([], r))
    else (k (c :: cs)).map (fun r => ([], r))

/-- Greedy repetition that needs at least one character. -/
def greedyPlus (cls : Char → Bool) (k : Cont) :
    List Char → Option (List Char × List (List Char) × List Char)
  | [] => none
  | c :: cs =>
    if cls c then (greedyStar cls k cs).map (fun (cap, r) => (c :: cap, r)) else none

/-- Non-greedy repetition: try the continuation here first, and only when it
fails take one more character. -/
def lazyStar (cls : Char → Bool) (k : Cont) :
    List Char → Option (List Char × List (List Char) × List Char)
  | [] => (k []).map (fun r => ([], r))
  | c :: cs =>
    match k (c :: cs) with
    | some r => some ([], r)
    | none =>
      if cls c then (lazyStar cls k cs).map (fun (cap, r) => (c :: cap, r)) else none

/-- Match the pattern at the head of the input, in backtracking order. -/
def matchItems : List Item → Cont
  | [] => fun inp => some ([], inp)
  | .lit s :: rest => fun inp =>
    match stripLit s inp with
    | some inp' => matchItems rest inp'
    | none => none
  | .capPlus cls :: rest => fun inp =>
    (greedyPlus cls (matchItems rest) inp).map (fun (cap, caps, r) => (cap :: caps, r))
  | .capStar cls :: rest => fun inp =>
    (greedyStar cls (matchItems rest) inp).map (fun (cap, caps, r) => (cap :: caps, r))
  | .capStarLazy cls :: rest => fun inp =>
    (lazyStar cls (matchItems rest) inp).map (fun (cap, caps, r) => (cap :: caps, r))

/-- The match that starts exactly here, as the matched text followed by the
captures. -/
def submatchAt (re : List Item) (inp : List Char) : Option (List (List Char)) :=
  (matchItems re inp).map (fun (caps, r) => inp.take (inp.length - r.length) :: caps)

/-- The leftmost match: the first start position, from the left, at which the
pattern matches; the empty list (Go's `nil`) when there is none. -/
def findSubmatch (re : List Item) : List Char → List (List Char)
  | [] => (submatchAt re []).getD []
  | c :: cs =>
    match submatchAt re (c :: cs) with
    | some m => m
    | none => findSubmatch re cs

/-- Go's `(*Regexp).FindStringSubmatch`. -/
def FindStringSubmatch (re : List Item) (s : String) : List String :=
  (findSubmatch re s.data).map String.mk

end regexp

/-- The class `\w`: `[0-9A-Za-z_]`. -/
def isWord (c : Char) : Bool := c.isAlphanum || c == '_'

/-- The class `.`: every character but the line feed. -/
def isAny (c : Char) : Bool := c != '\n'

/-- The class `[^\]]`. -/
def notRBracket (c : Char) : Bool := c != ']'

/-- The pattern compiled in `parseConfig`:
`\(command: (\w+), value: "(.*?)", modifier: \[([^\]]*)\], key: "(.*?)"\)`. -/
def re : List regexp.Item :=
  [.lit "(command: ".data, .capPlus isWord,
   .lit ", value: \"".data, .capStarLazy isAny,
   .lit "\", modifier: [".data, .capStar notRBracket,
   .lit "], key: \"".data, .capStarLazy isAny,
   .lit "\")".data]

/-! ## `parseConfig` -/

/-- The post-processing of the captured modifier list: split on commas, then
in each piece replace every double quote by nothing and trim white space. -/
def modifierStrings (capture : String) : List String :=
  (strings.Split capture ',').map (fun mod => strings.TrimSpace (strings.ReplaceAll mod '"' ""))

/-- The body of the scanning loop for one line: the records it appends. -/
def extractLine (line : String) : List KeyBind :=
  let ms := regexp.FindStringSubmatch re line
  if ms.length = 5 then
    [{ Command := ms.getD 1 "", Value := ms.getD 2 "",
       Modifier := modifierStrings (ms.getD 3 ""), Key := ms.getD 4 "" }]
  else []

/-- The loop `for scanner.Scan()` over the lines delivered, appending to
`keybinds`. -/
def scanLoop : List String → List KeyBind → List KeyBind
  | [], keybinds => keybinds
  | line :: rest, keybinds => scanLoop rest (keybinds ++ extractLine line)

/-- The records extracted from a list of lines, starting from none. -/
def parseLines (lines : List String) : List KeyBind := scanLoop lines []

/-- The environment of `parseConfig`: the outcome of `os.Open` on
`$HOME/.config/leftwm/config.ron`, the lines `scanner.Scan` delivers before
it stops, and the error `scanner.Err` reports after the loop. -/
structure ConfigFile where
  openErr : Option String
  lines : List String
  scanErr : Option String

/-- The function `parseConfig`; `Except.error` is the panic. -/
def parseConfig (file : ConfigFile) : Except String (List KeyBind) :=
  match file.openErr with
  | some err => .error err
  | none =>
    let keybinds := scanLoop file.lines []
    match file.scanErr with
    | some err => .error err
    | none => .ok keybinds

/-! ## `main`: the table -/

namespace tview

/-- A table cell: its text and its expansion weight. -/
structure TableCell where
  Text : String
  Expansion : Nat
deriving DecidableEq, Repr

/-- The constructor `tview.NewTableCell(text)`. -/
def NewTableCell (text : String) : TableCell := { Text := text, Expansion := 0 }

/-- The setter `SetExpansion`. -/
def TableCell.SetExpansion (c : TableCell) (expansion : Nat) : TableCell :=
  { c with Expansion := expansion }

/-- The table: number of rows, cells by (row, column), and the display
settings `main` touches. -/
structure Table where
  rowCount : Nat
  cell : Nat → Nat → Option TableCell
  fixedRows : Nat
  fixedColumns : Nat
  borders : Bool
  title : String

/-- The constructor `tview.NewTable()`. -/
def NewTable : Table :=
  { rowCount := 0, cell := fun _ _ => none, fixedRows := 0, fixedColumns := 0,
    borders := false, title := "" }

/-- The setter `SetCell(row, column, cell)`: the table grows to hold the row. -/
def Table.SetCell (t : Table) (row column : Nat) (c : TableCell) : Table :=
  { t with
    rowCount := max t.rowCount (row + 1)
    cell := fun r k => if r = row ∧ k = column then some c else t.cell r k }

end tview

/-- The loop `for i, kb := range keybinds` of `main`, from index `i` on. -/
def fillRows : Nat → List KeyBind → tview.Table → tview.Table
  | _, [], table => table
  | i, kb :: rest, table =>
    let row := i + 1
    let table := table.SetCell row 0
      ((tview.NewTableCell (getDescription kb.Command kb.Value)).SetExpansion 2)
    let table := table.SetCell row 1
      ((tview.NewTableCell (strings.Join kb.Modifier ", ")).SetExpansion 1)
    let table := table.SetCell row 2 ((tview.NewTableCell kb.Key).SetExpansion 1)
    fillRows (i + 1) rest table

/-- The table `main` builds from the keybindings, up to `app.SetRoot`. -/
def buildTable (keybinds : List KeyBind) : tview.Table :=
  let table := { tview.NewTable with fixedRows := 1, fixedColumns := 1, borders := true }
  let table := { table with title := "LeftWM Keybinds" }
  let table := table.SetCell 0 0 (tview.NewTableCell "Command")
  let table := table.SetCell 0 1 (tview.NewTableCell "Modifier")
  let table := table.SetCell 0 2 (tview.NewTableCell "Key")
  fillRows 0 keybinds table

namespace Lunacy

/-- The function `main` up to the start of the event loop: a panic of
`parseConfig` ends the program before any table is built. -/
def main (file : ConfigFile) : Except String tview.Table :=
  match parseConfig file with
  | .error err => .error err
  | .ok keybinds => .ok (buildTable keybinds)

end Lunacy

/-- The three cells of a table row, as texts. -/
def rowTexts (t : tview.Table) (row : Nat) : List (Option String) :=
  [(t.cell row 0).map (·.Text), (t.cell row 1).map (·.Text), (t.cell row 2).map (·.Text)]

/-- The test `len(matches) == 5` of the scanning loop, for a line. -/
def matchesLine (line : String) : Bool :=
  (regexp.FindStringSubmatch re line).length == 5

/-- The row of texts that `main` writes for a keybinding. -/
def renderRow (kb : KeyBind) : List (Option String) :=
  [some (getDescription kb.Command kb.Value), some (strings.Join kb.Modifier ", "), some kb.Key]

/-! ## Readings of the modifier clean-up -/

/-- A double quote or a white-space character. -/
def isQuoteOrSpace (c : Char) : Bool := c == '"' || unicode.IsSpace c

/-- The clean-up of one piece of the modifier list as the specification words
it: the quote characters and the white space that surround the piece are
stripped, and nothing inside the piece is changed. -/
def stripSurrounding (piece : String) : String :=
  String.mk ((piece.data.dropWhile isQuoteOrSpace).rdropWhile isQuoteOrSpace)

/-- The piece without any of its double quotes, wherever they stand. -/
def removeQuotes (piece : String) : String :=
  String.mk (piece.data.filter (fun c => c != '"'))

/-- The part of the pattern after the value group:
`", modifier: \[([^\]]*)\], key: "(.*?)"\)`. -/
def reAfterValue : List regexp.Item :=
  [.lit "\", modifier: [".data, .capStar notRBracket,
   .lit "], key: \"".data, .capStarLazy isAny,
   .lit "\")".data]

/-- The text of a record from the closing quote of its value on:
`", modifier: [m], key: "k")`. -/
def afterValueChars (m k : List Char) : List Char :=
  "\", modifier: [".data ++ (m ++ ("], key: \"".data ++ (k ++ "\")".data)))

/-- Grouping by command, as the package documentation promises it: no
keybinding of another command stands between two keybindings of one command. -/
def GroupedByCommand (kbs : List KeyBind) : Prop :=
  ∀ (i j k : Nat) (a b c : KeyBind), i < j → j < k → kbs[i]? = some a → kbs[j]? = some b → kbs[k]? = some c →
    a.Command = c.Command → b.Command = a.Command

/-! ## Lines used in the statements -/

/-- The text of a record: `(command: w, value: "v", modifier: [m], key: "k")`. -/
def recordChars (w v m k : List Char) : List Char :=
  "(command: ".data ++ (w ++ (", value: \"".data ++ (v ++ ("\", modifier: [".data ++
    (m ++ ("], key: \"".data ++ (k ++ "\")".data)))))))

/-- The line `(command: w, value: "v", modifier: [m], key: "k")`. -/
def recordLine (w v m k : String) : String :=
  "(command: " ++ w ++ ", value: \"" ++ v ++ "\", modifier: [" ++ m ++ "], key: \"" ++ k ++ "\")"


/-- A record line whose closing parenthesis is missing. -/
def lineWithoutParen (w v m k : String) : String :=
  "(command: " ++ w ++ ", value: \"" ++ v ++ "\", modifier: [" ++ m ++ "], key: \"" ++ k ++ "\""

/-- A record line that lacks the command field. -/
def lineWithoutCommand (v m k : String) : String :=
  "(value: \"" ++ v ++ "\", modifier: [" ++ m ++ "], key: \"" ++ k ++ "\")"

/-- A record line that lacks the value field. -/
def lineWithoutValue (w m k : String) : String :=
  "(command: " ++ w ++ ", modifier: [" ++ m ++ "], key: \"" ++ k ++ "\")"

/-- A record line that lacks the modifier field. -/
def lineWithoutModifier (w v k : String) : String :=
  "(command: " ++ w ++ ", value: \"" ++ v ++ "\", key: \"" ++ k ++ "\")"

/-- A record line that lacks the key field. -/
def lineWithoutKey (w v m : String) : String :=
  "(command: " ++ w ++ ", value: \"" ++ v ++ "\", modifier: [" ++ m ++ "])"

/-- The head of a record, up to the opening bracket of its modifier list:
`(command: w, value: "v", modifier: [`. -/
def recordHeadChars (w v : List Char) : List Char :=
  "(command: ".data ++ (w ++ (", value: \"".data ++ (v ++ "\", modifier: [".data)))

/-- The text holds the head of a record and ends inside its modifier list:
it is some text, then `(command: w, value: "v", modifier: [` with `w` a
non-empty word and `v` without line feed, then a text `m` without `]`. -/
def HoldsRecordHead (text : List Char) : Prop :=
  ∃ pre w v m, text = pre ++ (recordHeadChars w v ++ m) ∧ w ≠ [] ∧
    (∀ c ∈ w, isWord c = true) ∧ '\n' ∉ v ∧ ']' ∉ m

/-- The line that lacks the command field, up to the end of its modifier list. -/
def startWithoutCommand (v m : String) : String :=
  "(value: \"" ++ v ++ "\", modifier: [" ++ m

/-- The line that lacks the value field, up to the end of its modifier list. -/
def startWithoutValue (w m : String) : String :=
  "(command: " ++ w ++ ", modifier: [" ++ m

/-! ## Description resolution -/

/-- C1: the three interpolated commands give their fixed text followed by the
raw value, for every value, and so never the table's entry for them. -/
theorem C1_interpolated_commands (v : String) :
    getDescription "MoveToTag" v = "Move to Tag " ++ v ∧
    getDescription "GotoTag" v = "Go to Tag " ++ v ∧
    getDescription "Execute" v = "Execute " ++ v ∧
    getDescription "MoveToTag" "" = "Move to Tag " ∧
    getDescription "GotoTag" "" = "Go to Tag " ∧
    getDescription "Execute" "" = "Execute " ∧
    descriptions.lookup "GotoTag" = some "Go to tag" ∧
    descriptions.lookup "Execute" = some "Execute" ∧
    getDescription "GotoTag" v ≠ "Go to tag" ∧
    getDescription "Execute" v ≠ "Execute" := by
  have hg : getDescription "GotoTag" v = "Go to Tag " ++ v := by simp [getDescription]
  have he : getDescription "Execute" v = "Execute " ++ v := by simp [getDescription]
  refine ⟨by simp [getDescription], hg, he, by decide, by decide, by decide, by decide,
    by decide, ?_, ?_⟩
  · rw [hg]
    intro h
    have := congrArg String.data h
    simp at this
  · rw [he]
    intro h
    have := congrArg String.data h
    simp at this

/-- C2: a command of the table other than the three interpolated ones is
described by its table entry, whatever the value. -/
theorem C2_table_lookup (c d v : String)
    (h1 : c ≠ "MoveToTag") (h2 : c ≠ "GotoTag") (h3 : c ≠ "Execute")
    (hd : descriptions.lookup c = some d) :
    getDescription c v = d ∧ (∀ v2 : String, getDescription c v2 = getDescription c v) ∧
    getDescription "ToggleFullScreen" "" = "Toggle Fullscreen" := by
  have key : ∀ u : String, getDescription c u = d := by
    intro u
    simp [getDescription, h1, h2, h3, hd]
  exact ⟨key v, fun v2 => by rw [key v2, key v], by decide⟩

/-- Witness of C2 at `CloseWindow` with a non-empty value. -/
theorem C2_table_lookup_witness :
    getDescription "CloseWindow" "x" = "Close Window" ∧
    (∀ v2 : String, getDescription "CloseWindow" v2 = getDescription "CloseWindow" "x") ∧
    getDescription "ToggleFullScreen" "" = "Toggle Fullscreen" :=
  C2_table_lookup "CloseWindow" "Close Window" "x" (by decide) (by decide) (by decide)
    (by decide)

/-- C3: a command that is not interpolated and has no table entry is its own
description, whatever the value. -/
theorem C3_fallback (c v : String)
    (h1 : c ≠ "MoveToTag") (h2 : c ≠ "GotoTag") (h3 : c ≠ "Execute")
    (hd : descriptions.lookup c = none) :
    getDescription c v = c ∧ getDescription "UnknownCmd" "" = "UnknownCmd" := by
  refine ⟨?_, by decide⟩
  simp [getDescription, h1, h2, h3, hd]

/-- Witness of C3 at `UnknownCmd` with a non-empty value. -/
theorem C3_fallback_witness :
    getDescription "UnknownCmd" "7" = "UnknownCmd" ∧
    getDescription "UnknownCmd" "" = "UnknownCmd" :=
  C3_fallback "UnknownCmd" "7" (by decide) (by decide) (by decide) (by decide)

/-! ## Lemmas on the matcher -/

namespace regexp

theorem stripLit_append (s r : List Char) : stripLit s (s ++ r) = some r := by
  induction s with
  | nil => rfl
  | cons c cs ih => simp [stripLit, ih]

theorem stripLit_head_ne (a c : Char) (s t : List Char) (h : a ≠ c) :
    stripLit (a :: s) (c :: t) = none := by
  simp [stripLit, h]

theorem matchItems_lit_append (s : List Char) (rest : List Item) (r : List Char) :
    matchItems (.lit s :: rest) (s ++ r) = matchItems rest r := by
  simp [matchItems, stripLit_append]

theorem matchItems_lit_head_ne (a c : Char) (s t : List Char) (rest : List Item) (h : a ≠ c) :
    matchItems (.lit (a :: s) :: rest) (c :: t) = none := by
  simp [matchItems, stripLit, h]

/-- A greedy group takes a whole run of its class when the text after the run
does not continue it and the continuation accepts that text. -/
theorem greedyStar_run (cls : Char → Bool) (k : Cont) (w rest : List Char)
    (r : List (List Char) × List Char)
    (hw : ∀ c ∈ w, cls c = true) (hrest : ∀ d ∈ rest.head?, cls d = false)
    (hk : k rest = some r) :
    greedyStar cls k (w ++ rest) = some (w, r) := by
  induction w with
  | nil =>
    cases rest with
    | nil => simp [greedyStar, hk]
    | cons d t =>
      have hd : cls d = false := hrest d (by simp)
      simp [greedyStar, hd, hk]
  | cons c cs ih =>
    have hc : cls c = true := hw c (by simp)
    have := ih (fun x hx => hw x (by simp [hx]))
    simp [greedyStar, hc, this]

theorem greedyPlus_run (cls : Char → Bool) (k : Cont) (w rest : List Char)
    (r : List (List Char) × List Char) (hne : w ≠ [])
    (hw : ∀ c ∈ w, cls c = true) (hrest : ∀ d ∈ rest.head?, cls d = false)
    (hk : k rest = some r) :
    greedyPlus cls k (w ++ rest) = some (w, r) := by
  cases w with
  | nil => exact absurd rfl hne
  | cons c cs =>
    have hc : cls c = true := hw c (by simp)
    have := greedyStar_run cls k cs rest r (fun x hx => hw x (by simp [hx])) hrest hk
    simp [greedyPlus, hc, this]

/-- A non-greedy group stops at the first place where the continuation
accepts: it runs over text at which the continuation fails. -/
theorem lazyStar_run (cls : Char → Bool) (k : Cont) (v rest : List Char)
    (r : List (List Char) × List Char)
    (hv : ∀ c ∈ v, cls c = true) (hfail : ∀ c ∈ v, ∀ t, k (c :: t) = none)
    (hk : k rest = some r) :
    lazyStar cls k (v ++ rest) = some (v, r) := by
  induction v with
  | nil =>
    cases rest with
    | nil => simp [lazyStar, hk]
    | cons d t => simp [lazyStar, hk]
  | cons c cs ih =>
    have hc : cls c = true := hv c (by simp)
    have hf : k (c :: (cs ++ rest)) = none := hfail c (by simp) _
    have := ih (fun x hx => hv x (by simp [hx])) (fun x hx => hfail x (by simp [hx]))
    simp [lazyStar, hc, hf, this]

theorem matchItems_capPlus_run (cls : Char → Bool) (rest : List Item) (w inp s : List Char)
    (caps : List (List Char)) (hne : w ≠ [])
    (hw : ∀ c ∈ w, cls c = true) (hrest : ∀ d ∈ inp.head?, cls d = false)
    (hk : matchItems rest inp = some (caps, s)) :
    matchItems (.capPlus cls :: rest) (w ++ inp) = some (w :: caps, s) := by
  show (greedyPlus cls (matchItems rest) (w ++ inp)).map _ = _
  rw [greedyPlus_run cls _ w inp _ hne hw hrest hk]
  rfl

theorem matchItems_capStar_run (cls : Char → Bool) (rest : List Item) (w inp s : List Char)
    (caps : List (List Char))
    (hw : ∀ c ∈ w, cls c = true) (hrest : ∀ d ∈ inp.head?, cls d = false)
    (hk : matchItems rest inp = some (caps, s)) :
    matchItems (.capStar cls :: rest) (w ++ inp) = some (w :: caps, s) := by
  show (greedyStar cls (matchItems rest) (w ++ inp)).map _ = _
  rw [greedyStar_run cls _ w inp _ hw hrest hk]
  rfl

theorem matchItems_capStarLazy_run (cls : Char → Bool) (rest : List Item) (v inp s : List Char)
    (caps : List (List Char))
    (hv : ∀ c ∈ v, cls c = true) (hfail : ∀ c ∈ v, ∀ t, matchItems rest (c :: t) = none)
    (hk : matchItems rest inp = some (caps, s)) :
    matchItems (.capStarLazy cls :: rest) (v ++ inp) = some (v :: caps, s) := by
  show (lazyStar cls (matchItems rest) (v ++ inp)).map _ = _
  rw [lazyStar_run cls _ v inp _ hv hfail hk]
  rfl

end regexp

theorem isAny_of_not_mem (v : List Char) (h : '\n' ∉ v) : ∀ c ∈ v, isAny c = true := by
  intro c hc
  have : c ≠ '\n' := fun e => h (e ▸ hc)
  simp [isAny, this]

theorem notRBracket_of_not_mem (m : List Char) (h : ']' ∉ m) :
    ∀ c ∈ m, notRBracket c = true := by
  intro c hc
  have : c ≠ ']' := fun e => h (e ▸ hc)
  simp [notRBracket, this]

open regexp in
/-- At the start of a well-formed record the pattern matches, and captures the
four fields; what follows the record is left over. -/
theorem matchItems_record (w v m k s : List Char)
    (hne : w ≠ []) (hw : ∀ c ∈ w, isWord c = true)
    (hv : '"' ∉ v) (hvl : '\n' ∉ v) (hm : ']' ∉ m) (hk : '"' ∉ k) (hkl : '\n' ∉ k) :
    matchItems re (recordChars w v m k ++ s) = some ([w, v, m, k], s) := by
  have e8 : matchItems [.lit "\")".data] ("\")".data ++ s) = some ([], s) := by
    rw [matchItems_lit_append]; rfl
  have e7 := matchItems_capStarLazy_run isAny _ k _ s [] (isAny_of_not_mem k hkl)
    (fun c hc t => matchItems_lit_head_ne '"' c _ t _ (fun e => hk (e ▸ hc))) e8
  have e6 : matchItems [.lit "], key: \"".data, .capStarLazy isAny, .lit "\")".data]
      ("], key: \"".data ++ (k ++ ("\")".data ++ s))) = some ([k], s) := by
    rw [matchItems_lit_append]; exact e7
  have e5 := matchItems_capStar_run notRBracket _ m _ s [k] (notRBracket_of_not_mem m hm)
    (by intro d hd; simp at hd; subst hd; rfl) e6
  have e4 : matchItems [.lit "\", modifier: [".data, .capStar notRBracket,
      .lit "], key: \"".data, .capStarLazy isAny, .lit "\")".data]
      ("\", modifier: [".data ++ (m ++ ("], key: \"".data ++ (k ++ ("\")".data ++ s)))))
      = some ([m, k], s) := by
    rw [matchItems_lit_append]; exact e5
  have e3 := matchItems_capStarLazy_run isAny _ v _ s [m, k] (isAny_of_not_mem v hvl)
    (fun c hc t => matchItems_lit_head_ne '"' c _ t _ (fun e => hv (e ▸ hc))) e4
  have e2 : matchItems [.lit ", value: \"".data, .capStarLazy isAny,
      .lit "\", modifier: [".data, .capStar notRBracket,
      .lit "], key: \"".data, .capStarLazy isAny, .lit "\")".data]
      (", value: \"".data ++ (v ++ ("\", modifier: [".data ++ (m ++ ("], key: \"".data ++
        (k ++ ("\")".data ++ s)))))))
      = some ([v, m, k], s) := by
    rw [matchItems_lit_append]; exact e3
  have e1 := matchItems_capPlus_run isWord _ w _ s [v, m, k] hne hw
    (by intro d hd; simp at hd; subst hd; rfl) e2
  have e0 : recordChars w v m k ++ s = "(command: ".data ++ (w ++ (", value: \"".data ++
      (v ++ ("\", modifier: [".data ++ (m ++ ("], key: \"".data ++
        (k ++ ("\")".data ++ s)))))))) := by
    simp [recordChars]
  rw [e0]
  show matchItems (.lit "(command: ".data :: _) _ = _
  rw [matchItems_lit_append]; exact e1

namespace regexp

theorem stripLit_sound (s inp r : List Char) (h : stripLit s inp = some r) : inp = s ++ r := by
  induction s generalizing inp with
  | nil => simpa [stripLit] using h
  | cons c cs ih =>
    cases inp with
    | nil => simp [stripLit] at h
    | cons d ds =>
      by_cases hcd : c = d
      · subst hcd
        simp only [stripLit, if_true] at h
        simp [ih ds h]
      · simp [stripLit, hcd] at h

/-- What a greedy group captured is a run of its class, and the continuation
accepted the text after it. -/
theorem greedyStar_sound (cls : Char → Bool) (k : Cont) (inp cap : List Char)
    (r : List (List Char) × List Char) (h : greedyStar cls k inp = some (cap, r)) :
    (∀ c ∈ cap, cls c = true) ∧ ∃ rest, inp = cap ++ rest ∧ k rest = some r := by
  induction inp generalizing cap with
  | nil =>
    cases hk : k [] with
    | none => simp [greedyStar, hk] at h
    | some r0 =>
      simp only [greedyStar, hk, Option.map_some', Option.some.injEq, Prod.mk.injEq] at h
      obtain ⟨rfl, rfl⟩ := h
      exact ⟨by simp, [], by simp, hk⟩
  | cons c cs ih =>
    have here : (k (c :: cs)).map (fun r => (([] : List Char), r)) = some (cap, r) →
        (∀ x ∈ cap, cls x = true) ∧ ∃ rest, c :: cs = cap ++ rest ∧ k rest = some r := by
      intro h0
      cases hk : k (c :: cs) with
      | none => simp [hk] at h0
      | some r0 =>
        simp only [hk, Option.map_some', Option.some.injEq, Prod.mk.injEq] at h0
        obtain ⟨rfl, rfl⟩ := h0
        exact ⟨by simp, c :: cs, by simp, hk⟩
    by_cases hc : cls c = true
    · cases hg : greedyStar cls k cs with
      | none =>
        simp only [greedyStar, hc, if_true, hg] at h
        exact here h
      | some p =>
        obtain ⟨cap0, r0⟩ := p
        simp only [greedyStar, hc, if_true, hg, Option.some.injEq, Prod.mk.injEq] at h
        obtain ⟨rfl, rfl⟩ := h
        obtain ⟨h1, rest, h2, h3⟩ := ih cap0 hg
        refine ⟨?_, rest, by simp [h2], h3⟩
        intro x hx
        rcases List.mem_cons.1 hx with rfl | hx
        · exact hc
        · exact h1 x hx
    · simp only [greedyStar, hc] at h
      exact here h

theorem greedyPlus_sound (cls : Char → Bool) (k : Cont) (inp cap : List Char)
    (r : List (List Char) × List Char) (h : greedyPlus cls k inp = some (cap, r)) :
    cap ≠ [] ∧ (∀ c ∈ cap, cls c = true) ∧ ∃ rest, inp = cap ++ rest ∧ k rest = some r := by
  cases inp with
  | nil => simp [greedyPlus] at h
  | cons c cs =>
    by_cases hc : cls c = true
    · cases hg : greedyStar cls k cs with
      | none => simp [greedyPlus, hc, hg] at h
      | some p =>
        obtain ⟨cap0, r0⟩ := p
        simp only [greedyPlus, hc, if_true, hg, Option.map_some', Option.some.injEq,
          Prod.mk.injEq] at h
        obtain ⟨rfl, rfl⟩ := h
        obtain ⟨h1, rest, h2, h3⟩ := greedyStar_sound cls k cs cap0 r0 hg
        refine ⟨by simp, ?_, rest, by simp [h2], h3⟩
        intro x hx
        rcases List.mem_cons.1 hx with rfl | hx
        · exact hc
        · exact h1 x hx
    · simp [greedyPlus, hc] at h

theorem lazyStar_sound (cls : Char → Bool) (k : Cont) (inp cap : List Char)
    (r : List (List Char) × List Char) (h : lazyStar cls k inp = some (cap, r)) :
    (∀ c ∈ cap, cls c = true) ∧ ∃ rest, inp = cap ++ rest ∧ k rest = some r := by
  induction inp generalizing cap with
  | nil =>
    cases hk : k [] with
    | none => simp [lazyStar, hk] at h
    | some r0 =>
      simp only [lazyStar, hk, Option.map_some', Option.some.injEq, Prod.mk.injEq] at h
      obtain ⟨rfl, rfl⟩ := h
      exact ⟨by simp, [], by simp, hk⟩
  | cons c cs ih =>
    cases hk : k (c :: cs) with
    | some r0 =>
      simp only [lazyStar, hk, Option.some.injEq, Prod.mk.injEq] at h
      obtain ⟨rfl, rfl⟩ := h
      exact ⟨by simp, c :: cs, by simp, hk⟩
    | none =>
      by_cases hc : cls c = true
      · cases hg : lazyStar cls k cs with
        | none => simp [lazyStar, hk, hc, hg] at h
        | some p =>
          obtain ⟨cap0, r0⟩ := p
          simp only [lazyStar, hk, hc, if_true, hg, Option.map_some', Option.some.injEq,
            Prod.mk.injEq] at h
          obtain ⟨rfl, rfl⟩ := h
          obtain ⟨h1, rest, h2, h3⟩ := ih cap0 hg
          refine ⟨?_, rest, by simp [h2], h3⟩
          intro x hx
          rcases List.mem_cons.1 hx with rfl | hx
          · exact hc
          · exact h1 x hx
      · simp [lazyStar, hk, hc] at h

theorem matchItems_lit_sound (s : List Char) (rest : List Item) (inp : List Char)
    (r : List (List Char) × List Char) (h : matchItems (.lit s :: rest) inp = some r) :
    ∃ inp', inp = s ++ inp' ∧ matchItems rest inp' = some r := by
  cases hs : stripLit s inp with
  | none => simp [matchItems, hs] at h
  | some inp' =>
    simp only [matchItems, hs] at h
    exact ⟨inp', stripLit_sound s inp inp' hs, h⟩

theorem matchItems_capPlus_sound (cls : Char → Bool) (rest : List Item) (inp : List Char)
    (r : List (List Char) × List Char) (h : matchItems (.capPlus cls :: rest) inp = some r) :
    ∃ cap caps inp', r = (cap :: caps, r.2) ∧ inp = cap ++ inp' ∧ cap ≠ [] ∧
      (∀ c ∈ cap, cls c = true) ∧ matchItems rest inp' = some (caps, r.2) := by
  cases hg : greedyPlus cls (matchItems rest) inp with
  | none => simp [matchItems, hg] at h
  | some p =>
    obtain ⟨cap, caps, s⟩ := p
    simp only [matchItems, hg, Option.map_some', Option.some.injEq] at h
    subst h
    obtain ⟨h0, h1, inp', h2, h3⟩ := greedyPlus_sound cls _ inp cap _ hg
    exact ⟨cap, caps, inp', rfl, h2, h0, h1, h3⟩

theorem matchItems_capStar_sound (cls : Char → Bool) (rest : List Item) (inp : List Char)
    (r : List (List Char) × List Char) (h : matchItems (.capStar cls :: rest) inp = some r) :
    ∃ cap caps inp', r = (cap :: caps, r.2) ∧ inp = cap ++ inp' ∧
      (∀ c ∈ cap, cls c = true) ∧ matchItems rest inp' = some (caps, r.2) := by
  cases hg : greedyStar cls (matchItems rest) inp with
  | none => simp [matchItems, hg] at h
  | some p =>
    obtain ⟨cap, caps, s⟩ := p
    simp only [matchItems, hg, Option.map_some', Option.some.injEq] at h
    subst h
    obtain ⟨h1, inp', h2, h3⟩ := greedyStar_sound cls _ inp cap _ hg
    exact ⟨cap, caps, inp', rfl, h2, h1, h3⟩

theorem matchItems_capStarLazy_sound (cls : Char → Bool) (rest : List Item) (inp : List Char)
    (r : List (List Char) × List Char)
    (h : matchItems (.capStarLazy cls :: rest) inp = some r) :
    ∃ cap caps inp', r = (cap :: caps, r.2) ∧ inp = cap ++ inp' ∧
      (∀ c ∈ cap, cls c = true) ∧ matchItems rest inp' = some (caps, r.2) := by
  cases hg : lazyStar cls (matchItems rest) inp with
  | none => simp [matchItems, hg] at h
  | some p =>
    obtain ⟨cap, caps, s⟩ := p
    simp only [matchItems, hg, Option.map_some', Option.some.injEq] at h
    subst h
    obtain ⟨h1, inp', h2, h3⟩ := lazyStar_sound cls _ inp cap _ hg
    exact ⟨cap, caps, inp', rfl, h2, h1, h3⟩

end regexp

open regexp in
/-- Whatever the pattern matches at the head of a text is a record: the text
is the record built from the four captures, followed by the rest. -/
theorem matchItems_re_sound (inp : List Char) (caps : List (List Char)) (s : List Char)
    (h : matchItems re inp = some (caps, s)) :
    ∃ w v m k, caps = [w, v, m, k] ∧ inp = recordChars w v m k ++ s ∧ w ≠ [] ∧
      (∀ c ∈ w, isWord c = true) ∧ (∀ c ∈ v, isAny c = true) ∧
      (∀ c ∈ m, notRBracket c = true) ∧ (∀ c ∈ k, isAny c = true) := by
  obtain ⟨i1, e1, h⟩ := matchItems_lit_sound _ _ _ _ h
  obtain ⟨w, c1, i2, ec1, e2, hne, hw, h⟩ := matchItems_capPlus_sound _ _ _ _ h
  obtain ⟨i3, e3, h⟩ := matchItems_lit_sound _ _ _ _ h
  obtain ⟨v, c2, i4, ec2, e4, hv, h⟩ := matchItems_capStarLazy_sound _ _ _ _ h
  obtain ⟨i5, e5, h⟩ := matchItems_lit_sound _ _ _ _ h
  obtain ⟨m, c3, i6, ec3, e6, hm, h⟩ := matchItems_capStar_sound _ _ _ _ h
  obtain ⟨i7, e7, h⟩ := matchItems_lit_sound _ _ _ _ h
  obtain ⟨k, c4, i8, ec4, e8, hk, h⟩ := matchItems_capStarLazy_sound _ _ _ _ h
  obtain ⟨i9, e9, h⟩ := matchItems_lit_sound _ _ _ _ h
  simp only [matchItems, Option.some.injEq, Prod.mk.injEq] at h
  obtain ⟨rfl, rfl⟩ := h
  simp only [Prod.mk.injEq, and_true] at ec1 ec2 ec3 ec4
  subst ec4 ec3 ec2 ec1
  refine ⟨w, v, m, k, rfl, ?_, hne, hw, hv, hm, hk⟩
  subst e9 e8 e7 e6 e5 e4 e3 e2 e1
  simp [recordChars]

/-! ## From a match to the records of a line -/

open regexp in
theorem findSubmatch_of_match (inp : List Char) (caps : List (List Char)) (s : List Char)
    (h : matchItems re inp = some (caps, s)) :
    findSubmatch re inp = inp.take (inp.length - s.length) :: caps := by
  cases inp with
  | nil => simp [findSubmatch, submatchAt, h]
  | cons c cs => simp [findSubmatch, submatchAt, h]

open regexp in
theorem findSubmatch_eq_nil (inp : List Char)
    (h : ∀ t, t <:+ inp → matchItems re t = none) : findSubmatch re inp = [] := by
  induction inp with
  | nil => simp [findSubmatch, submatchAt, h [] (List.suffix_refl _)]
  | cons c cs ih =>
    have h1 := h (c :: cs) (List.suffix_refl _)
    have h2 := ih (fun t ht => h t (ht.trans (List.suffix_cons c cs)))
    simp [findSubmatch, submatchAt, h1, h2]

open regexp in
/-- The leftmost match, when there is one, is a record inside the line and
its four captures. -/
theorem findSubmatch_sound (inp : List Char) :
    findSubmatch re inp = [] ∨
    ∃ pre w v m k post, inp = pre ++ (recordChars w v m k ++ post) ∧
      findSubmatch re inp = [recordChars w v m k, w, v, m, k] ∧ w ≠ [] ∧
      (∀ c ∈ w, isWord c = true) ∧ (∀ c ∈ v, isAny c = true) ∧
      (∀ c ∈ m, notRBracket c = true) ∧ (∀ c ∈ k, isAny c = true) := by
  have at_head : ∀ (t : List Char) (p : List (List Char) × List Char),
      matchItems re t = some p →
      ∃ w v m k post, t = recordChars w v m k ++ post ∧
        findSubmatch re t = [recordChars w v m k, w, v, m, k] ∧ w ≠ [] ∧
        (∀ c ∈ w, isWord c = true) ∧ (∀ c ∈ v, isAny c = true) ∧
        (∀ c ∈ m, notRBracket c = true) ∧ (∀ c ∈ k, isAny c = true) := by
    intro t p hp
    obtain ⟨caps, s⟩ := p
    obtain ⟨w, v, m, k, rfl, e, hne, hw, hv, hm, hk⟩ := matchItems_re_sound t caps s hp
    refine ⟨w, v, m, k, s, e, ?_, hne, hw, hv, hm, hk⟩
    rw [findSubmatch_of_match t _ s hp, e]
    simp
  induction inp with
  | nil =>
    cases hm : matchItems re [] with
    | none => left; simp [findSubmatch, submatchAt, hm]
    | some p =>
      right
      obtain ⟨w, v, m, k, post, e, rest⟩ := at_head [] p hm
      exact ⟨[], w, v, m, k, post, by simpa using e, rest⟩
  | cons c cs ih =>
    cases hm : matchItems re (c :: cs) with
    | some p =>
      right
      obtain ⟨w, v, m, k, post, e, rest⟩ := at_head (c :: cs) p hm
      exact ⟨[], w, v, m, k, post, by simpa using e, rest⟩
    | none =>
      have step : findSubmatch re (c :: cs) = findSubmatch re cs := by
        simp [findSubmatch, submatchAt, hm]
      rcases ih with h0 | ⟨pre, w, v, m, k, post, e, rest⟩
      · left; rw [step, h0]
      · right
        refine ⟨c :: pre, w, v, m, k, post, by simp [e], ?_⟩
        rw [step]; exact rest

theorem extractLine_of_findSubmatch (line : String) (whole w v m k : List Char)
    (h : regexp.findSubmatch re line.data = [whole, w, v, m, k]) :
    extractLine line = [{ Command := ⟨w⟩, Value := ⟨v⟩, Modifier := modifierStrings ⟨m⟩,
                          Key := ⟨k⟩ }] := by
  simp [extractLine, regexp.FindStringSubmatch, h]

theorem extractLine_of_no_match (line : String)
    (h : regexp.findSubmatch re line.data = []) : extractLine line = [] := by
  simp [extractLine, regexp.FindStringSubmatch, h]

/-- A line gives at most one record. -/
theorem extractLine_length_le (line : String) : (extractLine line).length ≤ 1 := by
  unfold extractLine
  simp only
  split <;> simp

theorem recordLine_data (w v m k : String) :
    (recordLine w v m k).data = recordChars w.data v.data m.data k.data := by
  simp [recordLine, recordChars, String.data_append]

theorem extractLine_recordLine (w v m k : String)
    (hne : w ≠ "") (hw : ∀ c ∈ w.data, isWord c = true)
    (hv : '"' ∉ v.data) (hvl : '\n' ∉ v.data) (hm : ']' ∉ m.data)
    (hk : '"' ∉ k.data) (hkl : '\n' ∉ k.data) :
    extractLine (recordLine w v m k) =
      [{ Command := w, Value := v, Modifier := modifierStrings m, Key := k }] := by
  have hne2 : w.data ≠ [] := by
    intro h
    apply hne
    cases w
    simp_all
  have h := matchItems_record w.data v.data m.data k.data [] hne2 hw hv hvl hm hk hkl
  rw [List.append_nil, ← recordLine_data] at h
  exact extractLine_of_findSubmatch _ _ _ _ _ _ (findSubmatch_of_match _ _ _ h)

/-- C4: a well-formed record line gives exactly one KeyBind, whose fields are
the four fields of the line, the modifier list split and cleaned; Scenario A.
The text is a line of the scanner, so it holds no line feed. -/
theorem C4_well_formed_line (w v m k : String)
    (hne : w ≠ "") (hw : ∀ c ∈ w.data, isWord c = true)
    (hv : '"' ∉ v.data) (hm : ']' ∉ m.data) (hk : '"' ∉ k.data)
    (hline : '\n' ∉ (recordLine w v m k).data) :
    extractLine (recordLine w v m k) =
      [{ Command := w, Value := v, Modifier := modifierStrings m, Key := k }] ∧
    parseLines [recordLine w v m k] =
      [{ Command := w, Value := v, Modifier := modifierStrings m, Key := k }] ∧
    extractLine
        "(command: Execute, value: \"rofi -show drun\", modifier: [\"modkey\"], key: \"space\")" =
      [{ Command := "Execute", Value := "rofi -show drun", Modifier := ["modkey"],
         Key := "space" }] ∧
    getDescription "Execute" "rofi -show drun" = "Execute rofi -show drun" := by
  have hvl : '\n' ∉ v.data := by
    intro h
    apply hline
    simp [recordLine_data, recordChars, h]
  have hkl : '\n' ∉ k.data := by
    intro h
    apply hline
    simp [recordLine_data, recordChars, h]
  have h := extractLine_recordLine w v m k hne hw hv hvl hm hk hkl
  refine ⟨h, ?_, by decide, by decide⟩
  simp [parseLines, scanLoop, h]

/-- Witness of C4 at the line of Scenario B. -/
theorem C4_well_formed_line_witness :
    extractLine (recordLine "GotoTag" "1" "\"modkey\",\"Shift\"" "1") =
      [{ Command := "GotoTag", Value := "1",
         Modifier := modifierStrings "\"modkey\",\"Shift\"", Key := "1" }] ∧
    parseLines [recordLine "GotoTag" "1" "\"modkey\",\"Shift\"" "1"] =
      [{ Command := "GotoTag", Value := "1",
         Modifier := modifierStrings "\"modkey\",\"Shift\"", Key := "1" }] ∧
    extractLine
        "(command: Execute, value: \"rofi -show drun\", modifier: [\"modkey\"], key: \"space\")" =
      [{ Command := "Execute", Value := "rofi -show drun", Modifier := ["modkey"],
         Key := "space" }] ∧
    getDescription "Execute" "rofi -show drun" = "Execute rofi -show drun" :=
  C4_well_formed_line "GotoTag" "1" "\"modkey\",\"Shift\"" "1" (by decide) (by decide)
    (by decide) (by decide) (by decide) (by decide)

/-- The pattern's `.` does not cross a line feed: a text with one inside the
value is no line of the scanner and is not matched. -/
theorem recordLine_with_line_feed :
    extractLine (recordLine "CloseWindow" "a\nb" "" "q") = [] := by
  decide

/-! ## The scan over the lines -/

theorem scanLoop_eq (lines : List String) (keybinds : List KeyBind) :
    scanLoop lines keybinds = keybinds ++ lines.flatMap extractLine := by
  induction lines generalizing keybinds with
  | nil => simp [scanLoop]
  | cons line rest ih => simp [scanLoop, ih]

theorem parseLines_eq (lines : List String) : parseLines lines = lines.flatMap extractLine := by
  simp [parseLines, scanLoop_eq]

theorem parseLines_append (xs ys : List String) :
    parseLines (xs ++ ys) = parseLines xs ++ parseLines ys := by
  simp [parseLines_eq]

theorem parseLines_cons (line : String) (rest : List String) :
    parseLines (line :: rest) = extractLine line ++ parseLines rest := by
  simp [parseLines_eq]

theorem extractLine_of_matchesLine_false (line : String) (h : matchesLine line = false) :
    extractLine line = [] := by
  have : ¬ (regexp.FindStringSubmatch re line).length = 5 := by
    simpa [matchesLine] using h
  simp [extractLine, this]

theorem extractLine_of_matchesLine (line : String) (h : matchesLine line = true) :
    ∃ kb, extractLine line = [kb] := by
  have : (regexp.FindStringSubmatch re line).length = 5 := by
    simpa [matchesLine] using h
  simp [extractLine, this]

theorem parseLines_map_some (lines : List String) :
    (parseLines lines).map some =
      (lines.filter matchesLine).map (fun line => (extractLine line).head?) := by
  induction lines with
  | nil => simp [parseLines_eq]
  | cons line rest ih =>
    rw [parseLines_cons, List.map_append, ih]
    cases hm : matchesLine line with
    | false => simp [List.filter_cons, hm, extractLine_of_matchesLine_false line hm]
    | true =>
      obtain ⟨kb, hkb⟩ := extractLine_of_matchesLine line hm
      simp [List.filter_cons, hm, hkb]

theorem parseLines_replicate (n : Nat) (line : String) (kb : KeyBind)
    (h : extractLine line = [kb]) :
    parseLines (List.replicate n line) = List.replicate n kb := by
  induction n with
  | zero => simp [parseLines_eq]
  | succ n ih => rw [List.replicate_succ, parseLines_cons, ih, h]; rfl


/-! ## Lines without a match -/

/-- Two ways of cutting a list at an element `c`, the first at its first
occurrence: the second cut is the same or lies further right. -/
theorem split_first {α : Type} {c : α} {a b a2 b2 : List α} (hc : c ∉ a)
    (h : a ++ c :: b = a2 ++ c :: b2) :
    (a2 = a ∧ b2 = b) ∨ ∃ d, a2 = a ++ c :: d ∧ b = d ++ c :: b2 := by
  induction a generalizing a2 with
  | nil =>
    cases a2 with
    | nil => left; simpa using h.symm
    | cons y a3 =>
      right
      simp only [List.nil_append, List.cons_append, List.cons.injEq] at h
      exact ⟨a3, by simp [h.1], h.2⟩
  | cons x a0 ih =>
    have hx : c ≠ x := fun e => hc (by simp [e])
    have h0 : c ∉ a0 := fun e => hc (by simp [e])
    cases a2 with
    | nil =>
      simp only [List.nil_append, List.cons_append, List.cons.injEq] at h
      exact absurd h.1.symm hx
    | cons y a3 =>
      simp only [List.cons_append, List.cons.injEq] at h
      rcases ih h0 h.2 with ⟨e1, e2⟩ | ⟨d, e1, e2⟩
      · left; exact ⟨by rw [e1, h.1], e2⟩
      · right; exact ⟨d, by simp [e1, h.1], e2⟩

/-- A list with one occurrence of `c` is cut at `c` in one way only. -/
theorem split_unique {α : Type} {c : α} {a b a2 b2 : List α} (hc : c ∉ a) (hb : c ∉ b)
    (h : a ++ c :: b = a2 ++ c :: b2) : a2 = a ∧ b2 = b := by
  rcases split_first hc h with h1 | ⟨d, _, e2⟩
  · exact h1
  · exact absurd (by simp [e2]) hb

/-- After two quotes that are the first two of the left text, the rest of the
left text ends with what follows two quotes of the right text. -/
theorem two_quotes {P v T2 X V Y2 : List Char} (hP : '"' ∉ P) (hv : '"' ∉ v)
    (h : P ++ '"' :: (v ++ '"' :: T2) = X ++ '"' :: (V ++ '"' :: Y2)) :
    ∃ Z, T2 = Z ++ Y2 := by
  rcases split_first hP h with ⟨_, e2⟩ | ⟨d, _, e2⟩
  · rcases split_first hv e2.symm with ⟨_, e4⟩ | ⟨d2, _, e4⟩
    · exact ⟨[], by simp [e4]⟩
    · exact ⟨d2 ++ ['"'], by simp [e4]⟩
  · rcases split_first hv e2 with ⟨_, e4⟩ | ⟨d2, _, e4⟩
    · exact ⟨V ++ ['"'], by simp [e4]⟩
    · exact ⟨d2 ++ '"' :: (V ++ ['"']), by simp [e4]⟩

/-- The end of a line, from the key label on, holds no later key label that
is followed by a quoted text and a closing parenthesis. -/
theorem tail_no_later_key {R0 k t0 e K post : List Char}
    (hR : '"' ∉ R0) (hk : '"' ∉ k) (ht : '"' ∉ t0)
    (h : R0 ++ '"' :: (k ++ '"' :: t0) =
      e ++ ']' :: (R0 ++ '"' :: (K ++ '"' :: ')' :: post))) : False := by
  have h2 : R0 ++ '"' :: (k ++ '"' :: t0) =
      (e ++ ']' :: R0) ++ '"' :: (K ++ '"' :: ')' :: post) := by simpa using h
  rcases split_first hR h2 with ⟨e1, _⟩ | ⟨f, _, e2⟩
  · have := congrArg List.length e1
    simp at this
    omega
  · obtain ⟨_, e4⟩ := split_unique hk ht e2
    have : '"' ∈ t0 := by simp [← e4]
    exact ht (by simpa using this)

/-- Shape 1: the record without its closing parenthesis holds no record. -/
theorem no_record_without_paren (P v Q m R0 k X V M K post : List Char)
    (hP : '"' ∉ P) (hv : '"' ∉ v) (hQ : ']' ∉ Q) (hm : ']' ∉ m)
    (hR : '"' ∉ R0) (hk : '"' ∉ k)
    (h : P ++ '"' :: (v ++ '"' :: (Q ++ (m ++ ']' :: (R0 ++ '"' :: (k ++ ['"']))))) =
      X ++ '"' :: (V ++ '"' :: (Q ++ (M ++ ']' :: (R0 ++ '"' :: (K ++ '"' :: ')' :: post)))))) :
    False := by
  obtain ⟨Z, hZ⟩ := two_quotes hP hv h
  have h2 : (Q ++ m) ++ ']' :: (R0 ++ '"' :: (k ++ ['"'])) =
      (Z ++ (Q ++ M)) ++ ']' :: (R0 ++ '"' :: (K ++ '"' :: ')' :: post)) := by
    simpa using hZ
  have hQm : ']' ∉ Q ++ m := by simp [hQ, hm]
  rcases split_first hQm h2 with ⟨_, e2⟩ | ⟨e, _, e2⟩
  · have e3 : k ++ '"' :: [] = K ++ '"' :: (')' :: post) := by simpa using e2.symm
    obtain ⟨_, e4⟩ := split_unique hk (by simp) e3
    simp at e4
  · exact tail_no_later_key hR hk (by simp) e2

/-- Shape 2: the record without its key field holds no record. -/
theorem no_record_without_key (P v Q m R0 X V M K post : List Char)
    (hP : '"' ∉ P) (hv : '"' ∉ v) (hQ : ']' ∉ Q) (hm : ']' ∉ m)
    (h : P ++ '"' :: (v ++ '"' :: (Q ++ (m ++ [']', ')']))) =
      X ++ '"' :: (V ++ '"' :: (Q ++ (M ++ ']' :: (R0 ++ '"' :: (K ++ '"' :: ')' :: post)))))) :
    False := by
  obtain ⟨Z, hZ⟩ := two_quotes hP hv h
  have h2 : (Q ++ m) ++ ']' :: [')'] =
      (Z ++ (Q ++ M)) ++ ']' :: (R0 ++ '"' :: (K ++ '"' :: ')' :: post)) := by
    simpa using hZ
  have hQm : ']' ∉ Q ++ m := by simp [hQ, hm]
  rcases split_first hQm h2 with ⟨_, e2⟩ | ⟨e, _, e2⟩
  · have := congrArg List.length e2
    simp at this
    omega
  · have := congrArg List.length e2
    simp at this
    omega

/-- Shape 3: the record without its modifier field holds no record. -/
theorem no_record_without_modifier (P v Q R0 k X V M K post : List Char)
    (hP : '"' ∉ P) (hv : '"' ∉ v) (hR : '"' ∉ R0) (hk : '"' ∉ k)
    (h : P ++ '"' :: (v ++ '"' :: (R0 ++ '"' :: (k ++ ['"', ')']))) =
      X ++ '"' :: (V ++ '"' :: (Q ++ (M ++ ']' :: (R0 ++ '"' :: (K ++ '"' :: ')' :: post)))))) :
    False := by
  obtain ⟨Z, hZ⟩ := two_quotes hP hv h
  have h2 : R0 ++ '"' :: (k ++ '"' :: [')']) =
      (Z ++ (Q ++ (M ++ ']' :: R0))) ++ '"' :: (K ++ '"' :: ')' :: post) := by
    simpa using hZ
  rcases split_first hR h2 with ⟨e1, _⟩ | ⟨f, _, e2⟩
  · have := congrArg List.length e1
    simp at this
    omega
  · obtain ⟨_, e4⟩ := split_unique hk (by simp) e2
    have : '"' ∈ [')'] := by rw [← e4]; simp
    simp at this

/-- Shape 4: the record without its command field holds no record, when the
modifier list has no bracket. -/
theorem no_record_without_command (P0 v Q0 m R0 k X V M K post : List Char)
    (hP : '"' ∉ P0) (hX : P0.length < X.length) (hv : '"' ∉ v)
    (hQ1 : '[' ∉ Q0) (hQ2 : ']' ∉ Q0) (hm1 : '[' ∉ m) (hm2 : ']' ∉ m)
    (hR : '"' ∉ R0) (hk : '"' ∉ k)
    (h : P0 ++ '"' :: (v ++ '"' :: (Q0 ++ '[' :: (m ++ ']' :: (R0 ++ '"' :: (k ++ ['"', ')']))))) =
      X ++ '"' :: (V ++ '"' :: (Q0 ++ '[' :: (M ++ ']' ::
        (R0 ++ '"' :: (K ++ '"' :: ')' :: post)))))) :
    False := by
  rcases split_first hP h with ⟨e1, _⟩ | ⟨d, _, e2⟩
  · rw [e1] at hX
    exact absurd hX (Nat.lt_irrefl _)
  · have key : ∃ Z, Q0 ++ '[' :: (m ++ ']' :: (R0 ++ '"' :: (k ++ ['"', ')']))) =
        Z ++ '"' :: (Q0 ++ '[' :: (M ++ ']' :: (R0 ++ '"' :: (K ++ '"' :: ')' :: post)))) := by
      rcases split_first hv e2 with ⟨_, e4⟩ | ⟨d2, _, e4⟩
      · exact ⟨V, e4.symm⟩
      · exact ⟨d2 ++ '"' :: V, by simp [e4]⟩
    obtain ⟨Z, hZ⟩ := key
    have h2 : (Q0 ++ '[' :: m) ++ ']' :: (R0 ++ '"' :: (k ++ '"' :: [')'])) =
        (Z ++ '"' :: (Q0 ++ '[' :: M)) ++ ']' :: (R0 ++ '"' :: (K ++ '"' :: ')' :: post)) := by
      simpa using hZ
    have hQm : ']' ∉ Q0 ++ '[' :: m := by simp [hQ2, hm2]
    rcases split_first hQm h2 with ⟨e5, _⟩ | ⟨e, _, e6⟩
    · have h3 : Q0 ++ '[' :: m = (Z ++ '"' :: Q0) ++ '[' :: M := by simpa using e5.symm
      rcases split_first hQ1 h3 with ⟨e7, _⟩ | ⟨f, _, e8⟩
      · have := congrArg List.length e7
        simp at this
        omega
      · exact hm1 (by simp [e8])
    · exact tail_no_later_key hR hk (by simp) e6

/-- Shape 5: the record without its value field holds no record, when the
modifier list has no bracket. -/
theorem no_record_without_value (N0 Q0 m R0 k X V M K post : List Char)
    (hN1 : '[' ∉ N0) (hN2 : ']' ∉ N0) (hN3 : '"' ∉ N0)
    (hm1 : '[' ∉ m) (hm2 : ']' ∉ m) (hR : '"' ∉ R0) (hk : '"' ∉ k)
    (h : N0 ++ '[' :: (m ++ ']' :: (R0 ++ '"' :: (k ++ ['"', ')']))) =
      X ++ '"' :: (V ++ '"' :: (Q0 ++ '[' :: (M ++ ']' ::
        (R0 ++ '"' :: (K ++ '"' :: ')' :: post)))))) :
    False := by
  have h2 : (N0 ++ '[' :: m) ++ ']' :: (R0 ++ '"' :: (k ++ '"' :: [')'])) =
      (X ++ '"' :: (V ++ '"' :: (Q0 ++ '[' :: M))) ++ ']' ::
        (R0 ++ '"' :: (K ++ '"' :: ')' :: post)) := by
    simpa using h
  have hNm : ']' ∉ N0 ++ '[' :: m := by simp [hN2, hm2]
  rcases split_first hNm h2 with ⟨e5, _⟩ | ⟨e, _, e6⟩
  · have h3 : N0 ++ '[' :: m = (X ++ '"' :: (V ++ '"' :: Q0)) ++ '[' :: M := by
      simpa using e5.symm
    rcases split_first hN1 h3 with ⟨e7, _⟩ | ⟨f, _, e8⟩
    · exact hN3 (by simp [← e7])
    · exact hm1 (by simp [e8])
  · exact tail_no_later_key hR hk (by simp) e6

/-- When a text starts with a part free of `c`, a cut at `c` lies in the rest
of the text. -/
theorem cut_after {α : Type} {c : α} {A m Z T : List α} (hc : c ∉ A)
    (h : A ++ m = Z ++ c :: T) : ∃ s, m = s ++ c :: T := by
  induction A generalizing Z with
  | nil => exact ⟨Z, by simpa using h⟩
  | cons x A0 ih =>
    have hx : c ≠ x := fun e => hc (by simp [e])
    have h0 : c ∉ A0 := fun e => hc (by simp [e])
    cases Z with
    | nil =>
      simp only [List.nil_append, List.cons_append, List.cons.injEq] at h
      exact absurd h.1.symm hx
    | cons y Z0 =>
      simp only [List.cons_append, List.cons.injEq] at h
      exact ih h0 h.2

/-- Shape 4 again: the record without its command field holds no record,
when the modifier list does not hold the closing quote of a value followed by
a modifier label. -/
theorem no_record_without_command_label (P0 v Q0 m R0 k X V M K post : List Char)
    (hP : '"' ∉ P0) (hX : P0.length < X.length) (hv : '"' ∉ v)
    (hQ1 : '"' ∉ Q0) (hQ2 : ']' ∉ Q0)
    (hm1 : ∀ s t, m ≠ s ++ '"' :: (Q0 ++ '[' :: t)) (hm2 : ']' ∉ m)
    (hR : '"' ∉ R0) (hk : '"' ∉ k)
    (h : P0 ++ '"' :: (v ++ '"' :: (Q0 ++ '[' :: (m ++ ']' :: (R0 ++ '"' :: (k ++ ['"', ')']))))) =
      X ++ '"' :: (V ++ '"' :: (Q0 ++ '[' :: (M ++ ']' ::
        (R0 ++ '"' :: (K ++ '"' :: ')' :: post)))))) :
    False := by
  rcases split_first hP h with ⟨e1, _⟩ | ⟨d, _, e2⟩
  · rw [e1] at hX
    exact absurd hX (Nat.lt_irrefl _)
  · have key : ∃ Z, Q0 ++ '[' :: (m ++ ']' :: (R0 ++ '"' :: (k ++ ['"', ')']))) =
        Z ++ '"' :: (Q0 ++ '[' :: (M ++ ']' :: (R0 ++ '"' :: (K ++ '"' :: ')' :: post)))) := by
      rcases split_first hv e2 with ⟨_, e4⟩ | ⟨d2, _, e4⟩
      · exact ⟨V, e4.symm⟩
      · exact ⟨d2 ++ '"' :: V, by simp [e4]⟩
    obtain ⟨Z, hZ⟩ := key
    have h2 : (Q0 ++ '[' :: m) ++ ']' :: (R0 ++ '"' :: (k ++ '"' :: [')'])) =
        (Z ++ '"' :: (Q0 ++ '[' :: M)) ++ ']' :: (R0 ++ '"' :: (K ++ '"' :: ')' :: post)) := by
      simpa using hZ
    have hQm : ']' ∉ Q0 ++ '[' :: m := by simp [hQ2, hm2]
    rcases split_first hQm h2 with ⟨e5, _⟩ | ⟨e, _, e6⟩
    · have h3 : (Q0 ++ ['[']) ++ m = Z ++ '"' :: (Q0 ++ '[' :: M) := by simpa using e5.symm
      have hq : '"' ∉ Q0 ++ ['['] := by simp [hQ1]
      obtain ⟨s, hs⟩ := cut_after hq h3
      exact hm1 s M hs
    · exact tail_no_later_key hR hk (by simp) e6

/-- Shape 5 again: the record without its value field holds no record, when
the modifier list does not hold the closing quote of a value followed by a
modifier label. -/
theorem no_record_without_value_label (N0 Q0 m R0 k X V M K post : List Char)
    (hN2 : ']' ∉ N0) (hN3 : '"' ∉ N0)
    (hm1 : ∀ s t, m ≠ s ++ '"' :: (Q0 ++ '[' :: t)) (hm2 : ']' ∉ m)
    (hR : '"' ∉ R0) (hk : '"' ∉ k)
    (h : N0 ++ '[' :: (m ++ ']' :: (R0 ++ '"' :: (k ++ ['"', ')']))) =
      X ++ '"' :: (V ++ '"' :: (Q0 ++ '[' :: (M ++ ']' ::
        (R0 ++ '"' :: (K ++ '"' :: ')' :: post)))))) :
    False := by
  have h2 : (N0 ++ '[' :: m) ++ ']' :: (R0 ++ '"' :: (k ++ '"' :: [')'])) =
      (X ++ '"' :: (V ++ '"' :: (Q0 ++ '[' :: M))) ++ ']' ::
        (R0 ++ '"' :: (K ++ '"' :: ')' :: post)) := by
    simpa using h
  have hNm : ']' ∉ N0 ++ '[' :: m := by simp [hN2, hm2]
  rcases split_first hNm h2 with ⟨e5, _⟩ | ⟨e, _, e6⟩
  · have h3 : (N0 ++ ['[']) ++ m = (X ++ '"' :: V) ++ '"' :: (Q0 ++ '[' :: M) := by
      simpa using e5.symm
    have hq : '"' ∉ N0 ++ ['['] := by simp [hN3]
    obtain ⟨s, hs⟩ := cut_after hq h3
    exact hm1 s M hs
  · exact tail_no_later_key hR hk (by simp) e6

/-- Shape 4, located: a record found in the record without its command field
ends at the closing bracket of the modifier list, so its head lies in the
text before that bracket. -/
theorem record_in_line_without_command (P0 v Q0 m R0 k X V M K post : List Char)
    (hP : '"' ∉ P0) (hX : P0.length < X.length) (hv : '"' ∉ v)
    (hQ2 : ']' ∉ Q0) (hm2 : ']' ∉ m) (hR : '"' ∉ R0) (hk : '"' ∉ k)
    (h : P0 ++ '"' :: (v ++ '"' :: (Q0 ++ '[' :: (m ++ ']' :: (R0 ++ '"' :: (k ++ ['"', ')']))))) =
      X ++ '"' :: (V ++ '"' :: (Q0 ++ '[' :: (M ++ ']' ::
        (R0 ++ '"' :: (K ++ '"' :: ')' :: post)))))) :
    P0 ++ '"' :: (v ++ '"' :: (Q0 ++ '[' :: m)) = X ++ '"' :: (V ++ '"' :: (Q0 ++ '[' :: M)) := by
  rcases split_first hP h with ⟨e1, _⟩ | ⟨d, _, e2⟩
  · rw [e1] at hX
    exact absurd hX (Nat.lt_irrefl _)
  · have key : ∃ Z, Q0 ++ '[' :: (m ++ ']' :: (R0 ++ '"' :: (k ++ ['"', ')']))) =
        Z ++ '"' :: (Q0 ++ '[' :: (M ++ ']' :: (R0 ++ '"' :: (K ++ '"' :: ')' :: post)))) := by
      rcases split_first hv e2 with ⟨_, e4⟩ | ⟨d2, _, e4⟩
      · exact ⟨V, e4.symm⟩
      · exact ⟨d2 ++ '"' :: V, by simp [e4]⟩
    obtain ⟨Z, hZ⟩ := key
    have h2 : (Q0 ++ '[' :: m) ++ ']' :: (R0 ++ '"' :: (k ++ '"' :: [')'])) =
        (Z ++ '"' :: (Q0 ++ '[' :: M)) ++ ']' :: (R0 ++ '"' :: (K ++ '"' :: ')' :: post)) := by
      simpa using hZ
    have hQm : ']' ∉ Q0 ++ '[' :: m := by simp [hQ2, hm2]
    rcases split_first hQm h2 with ⟨_, e5⟩ | ⟨e, _, e6⟩
    · have h3 : (P0 ++ '"' :: (v ++ '"' :: (Q0 ++ '[' :: m))) ++
            ']' :: (R0 ++ '"' :: (k ++ '"' :: [')'])) =
          (X ++ '"' :: (V ++ '"' :: (Q0 ++ '[' :: M))) ++
            ']' :: (R0 ++ '"' :: (k ++ '"' :: [')'])) := by
        have h4 := h
        rw [e5] at h4
        simpa using h4
      exact List.append_cancel_right h3
    · exact absurd (tail_no_later_key hR hk (by simp) e6) id

/-- Shape 5, located: a record found in the record without its value field
ends at the closing bracket of the modifier list, so its head lies in the
text before that bracket. -/
theorem record_in_line_without_value (N0 Q0 m R0 k X V M K post : List Char)
    (hN2 : ']' ∉ N0) (hm2 : ']' ∉ m) (hR : '"' ∉ R0) (hk : '"' ∉ k)
    (h : N0 ++ '[' :: (m ++ ']' :: (R0 ++ '"' :: (k ++ ['"', ')']))) =
      X ++ '"' :: (V ++ '"' :: (Q0 ++ '[' :: (M ++ ']' ::
        (R0 ++ '"' :: (K ++ '"' :: ')' :: post)))))) :
    N0 ++ '[' :: m = X ++ '"' :: (V ++ '"' :: (Q0 ++ '[' :: M)) := by
  have h2 : (N0 ++ '[' :: m) ++ ']' :: (R0 ++ '"' :: (k ++ '"' :: [')'])) =
      (X ++ '"' :: (V ++ '"' :: (Q0 ++ '[' :: M))) ++ ']' ::
        (R0 ++ '"' :: (K ++ '"' :: ')' :: post)) := by
    simpa using h
  have hNm : ']' ∉ N0 ++ '[' :: m := by simp [hN2, hm2]
  rcases split_first hNm h2 with ⟨e5, _⟩ | ⟨e, _, e6⟩
  · exact e5.symm
  · exact absurd (tail_no_later_key hR hk (by simp) e6) id

theorem findSubmatch_eq_nil_of_no_record (inp : List Char)
    (h : ∀ pre w v m k post, inp ≠ pre ++ (recordChars w v m k ++ post)) :
    regexp.findSubmatch re inp = [] := by
  rcases findSubmatch_sound inp with h0 | ⟨pre, w, v, m, k, post, e, _⟩
  · exact h0
  · exact absurd e (h pre w v m k post)

theorem not_mem_of_isWord (w : List Char) (hw : ∀ c ∈ w, isWord c = true) (x : Char)
    (hx : isWord x = false) : x ∉ w := by
  intro h
  have := hw x h
  rw [hx] at this
  cases this

theorem extractLine_lineWithoutParen (w v m k : String) (hw : ∀ c ∈ w.data, isWord c = true)
    (hv : '"' ∉ v.data) (hm : ']' ∉ m.data) (hk : '"' ∉ k.data) :
    extractLine (lineWithoutParen w v m k) = [] := by
  apply extractLine_of_no_match
  apply findSubmatch_eq_nil_of_no_record
  intro pre w2 v2 m2 k2 post h
  have hwq : '"' ∉ w.data := not_mem_of_isWord _ hw _ (by decide)
  exact no_record_without_paren ("(command: ".data ++ (w.data ++ ", value: ".data))
    (v.data) (", modifier: [".data) (m.data) (", key: ".data)
    (k.data) (pre ++ ("(command: ".data ++ (w2 ++ ", value: ".data)))
    (v2) (m2) (k2) (post)
    (by simp [hwq]) hv (by decide) hm (by decide) hk
    (by simpa [lineWithoutParen, recordChars, String.data_append] using h)

theorem extractLine_lineWithoutKey (w v m : String) (hw : ∀ c ∈ w.data, isWord c = true)
    (hv : '"' ∉ v.data) (hm : ']' ∉ m.data) :
    extractLine (lineWithoutKey w v m) = [] := by
  apply extractLine_of_no_match
  apply findSubmatch_eq_nil_of_no_record
  intro pre w2 v2 m2 k2 post h
  have hwq : '"' ∉ w.data := not_mem_of_isWord _ hw _ (by decide)
  exact no_record_without_key ("(command: ".data ++ (w.data ++ ", value: ".data))
    (v.data) (", modifier: [".data) (m.data) (", key: ".data)
    (pre ++ ("(command: ".data ++ (w2 ++ ", value: ".data)))
    (v2) (m2) (k2) (post)
    (by simp [hwq]) hv (by decide) hm
    (by simpa [lineWithoutKey, recordChars, String.data_append] using h)

theorem extractLine_lineWithoutModifier (w v k : String) (hw : ∀ c ∈ w.data, isWord c = true)
    (hv : '"' ∉ v.data) (hk : '"' ∉ k.data) :
    extractLine (lineWithoutModifier w v k) = [] := by
  apply extractLine_of_no_match
  apply findSubmatch_eq_nil_of_no_record
  intro pre w2 v2 m2 k2 post h
  have hwq : '"' ∉ w.data := not_mem_of_isWord _ hw _ (by decide)
  exact no_record_without_modifier ("(command: ".data ++ (w.data ++ ", value: ".data))
    (v.data) (", modifier: [".data) (", key: ".data) (k.data)
    (pre ++ ("(command: ".data ++ (w2 ++ ", value: ".data)))
    (v2) (m2) (k2) (post)
    (by simp [hwq]) hv (by decide) hk
    (by simpa [lineWithoutModifier, recordChars, String.data_append] using h)

theorem extractLine_lineWithoutCommand (v m k : String)
    (hv : '"' ∉ v.data) (hm : ']' ∉ m.data) (hm2 : '[' ∉ m.data) (hk : '"' ∉ k.data) :
    extractLine (lineWithoutCommand v m k) = [] := by
  apply extractLine_of_no_match
  apply findSubmatch_eq_nil_of_no_record
  intro pre w2 v2 m2 k2 post h
  exact no_record_without_command ("(value: ".data)
    (v.data) (", modifier: ".data) (m.data) (", key: ".data)
    (k.data) (pre ++ ("(command: ".data ++ (w2 ++ ", value: ".data)))
    (v2) (m2) (k2) (post)
    (by decide) (by simp; omega) hv (by decide) (by decide) hm2 hm (by decide) hk
    (by simpa [lineWithoutCommand, recordChars, String.data_append] using h)

theorem extractLine_lineWithoutValue (w m k : String) (hw : ∀ c ∈ w.data, isWord c = true)
    (hm : ']' ∉ m.data) (hm2 : '[' ∉ m.data) (hk : '"' ∉ k.data) :
    extractLine (lineWithoutValue w m k) = [] := by
  apply extractLine_of_no_match
  apply findSubmatch_eq_nil_of_no_record
  intro pre w2 v2 m2 k2 post h
  have hw1 : '"' ∉ w.data := not_mem_of_isWord _ hw _ (by decide)
  have hw2 : '[' ∉ w.data := not_mem_of_isWord _ hw _ (by decide)
  have hw3 : ']' ∉ w.data := not_mem_of_isWord _ hw _ (by decide)
  exact no_record_without_value ("(command: ".data ++ (w.data ++ ", modifier: ".data))
    (", modifier: ".data) (m.data) (", key: ".data)
    (k.data) (pre ++ ("(command: ".data ++ (w2 ++ ", value: ".data)))
    (v2) (m2) (k2) (post)
    (by simp [hw2]) (by simp [hw3]) (by simp [hw1]) hm2 hm (by decide) hk
    (by simpa [lineWithoutValue, recordChars, String.data_append] using h)

/-- A complete record nested in the modifier list of a line that lacks its
command field is still found: the bracket condition cannot be dropped. -/
theorem lineWithoutCommand_nested_record :
    extractLine (lineWithoutCommand "v" "(command: X, value: \"a\", modifier: [b" "k") =
      [{ Command := "X", Value := "a", Modifier := ["b"], Key := "k" }] := by
  decide


/-- C6: the records come in the order of the lines: parsing distributes over
concatenation, the records are the matching lines in order, each replaced by
its record, and a matching line repeated n times gives n equal records. -/
theorem C6_file_order (xs ys lines : List String) (line : String) (kb : KeyBind) (n : Nat)
    (h : extractLine line = [kb]) :
    parseLines (xs ++ ys) = parseLines xs ++ parseLines ys ∧
    (parseLines lines).map some =
      (lines.filter matchesLine).map (fun l => (extractLine l).head?) ∧
    (parseLines lines).length = (lines.filter matchesLine).length ∧
    parseLines (List.replicate n line) = List.replicate n kb := by
  refine ⟨parseLines_append xs ys, parseLines_map_some lines, ?_,
    parseLines_replicate n line kb h⟩
  have := congrArg List.length (parseLines_map_some lines)
  simpa using this

/-- Witness of C6: the Scenario C line, three times, between other lines. -/
theorem C6_file_order_witness :
    parseLines (["x"] ++ ["y"]) = parseLines ["x"] ++ parseLines ["y"] ∧
    (parseLines ["keybind: [", "(command: CloseWindow, value: \"\", modifier: [], key: \"q\")"]).map
        some =
      ((["keybind: [", "(command: CloseWindow, value: \"\", modifier: [], key: \"q\")"]).filter
        matchesLine).map (fun l => (extractLine l).head?) ∧
    (parseLines ["keybind: [",
        "(command: CloseWindow, value: \"\", modifier: [], key: \"q\")"]).length =
      ((["keybind: [", "(command: CloseWindow, value: \"\", modifier: [], key: \"q\")"]).filter
        matchesLine).length ∧
    parseLines (List.replicate 3
        "(command: ToggleFullScreen, value: \"\", modifier: [\"modkey\"], key: \"f\")") =
      List.replicate 3
        { Command := "ToggleFullScreen", Value := "", Modifier := ["modkey"], Key := "f" } :=
  C6_file_order ["x"] ["y"]
    ["keybind: [", "(command: CloseWindow, value: \"\", modifier: [], key: \"q\")"]
    "(command: ToggleFullScreen, value: \"\", modifier: [\"modkey\"], key: \"f\")"
    { Command := "ToggleFullScreen", Value := "", Modifier := ["modkey"], Key := "f" } 3
    (by decide)

/-! ## The clean-up of the modifier list -/

theorem ReplaceAll_quote_eq_removeQuotes (piece : String) :
    strings.ReplaceAll piece '"' "" = removeQuotes piece := by
  unfold strings.ReplaceAll removeQuotes
  congr 1
  induction piece.data with
  | nil => rfl
  | cons c cs ih =>
    by_cases hc : c = '"'
    · simp [List.flatMap_cons, hc, ← ih]
    · simp [List.flatMap_cons, hc, ← ih]

/-- Trimming a text that is a core between two runs of trimmed characters
gives the core, when the core neither starts nor ends with such a character. -/
theorem trim_sandwich (p : Char → Bool) (pre core post : List Char)
    (hpre : ∀ c ∈ pre, p c = true) (hpost : ∀ c ∈ post, p c = true)
    (hhead : ∀ c ∈ core.head?, p c = false) (hlast : ∀ c ∈ core.getLast?, p c = false) :
    ((pre ++ (core ++ post)).dropWhile p).rdropWhile p = core := by
  rw [List.dropWhile_append_of_pos hpre]
  cases core with
  | nil =>
    have : post.dropWhile p = [] := List.dropWhile_eq_nil_iff.2 (fun x hx => hpost x hx)
    simp [this]
  | cons x mid =>
    have hx : p x = false := hhead x (by simp)
    have h1 : ((x :: mid) ++ post).dropWhile p = (x :: mid) ++ post := by
      simp [List.dropWhile, hx]
    rw [h1]
    clear h1
    induction post using List.reverseRecOn with
    | nil =>
      rw [List.append_nil, List.rdropWhile_eq_self_iff]
      intro hl
      have := hlast ((x :: mid).getLast hl) (by rw [List.getLast?_eq_getLast _ hl]; simp)
      simp [this]
    | append_singleton post0 y ih =>
      have hy : p y = true := hpost y (by simp)
      rw [← List.append_assoc, List.rdropWhile_concat_pos _ _ _ hy]
      exact ih (fun c hc => hpost c (by simp [hc]))

/-- Where the quotes of a piece stand only in the run of quotes and white
space around its core, the clean-up of the source is the stripping of the
surrounding quotes and white space. -/
theorem clean_eq_stripSurrounding (piece : String) (pre core post : List Char)
    (hp : piece.data = pre ++ (core ++ post))
    (hpre : ∀ c ∈ pre, isQuoteOrSpace c = true) (hpost : ∀ c ∈ post, isQuoteOrSpace c = true)
    (hcore : '"' ∉ core)
    (hhead : ∀ c ∈ core.head?, unicode.IsSpace c = false)
    (hlast : ∀ c ∈ core.getLast?, unicode.IsSpace c = false) :
    strings.TrimSpace (strings.ReplaceAll piece '"' "") = String.mk core ∧
    stripSurrounding piece = String.mk core := by
  have notq : ∀ c ∈ core, (c != '"') = true := by
    intro c hc
    have : c ≠ '"' := fun e => hcore (e ▸ hc)
    simp [this]
  have sp : ∀ (l : List Char), (∀ c ∈ l, isQuoteOrSpace c = true) →
      ∀ c ∈ l.filter (fun c => c != '"'), unicode.IsSpace c = true := by
    intro l hl c hc
    rw [List.mem_filter] at hc
    have h1 := hl c hc.1
    have h2 : c ≠ '"' := by simpa using hc.2
    simpa [isQuoteOrSpace, h2] using h1
  constructor
  · rw [ReplaceAll_quote_eq_removeQuotes]
    unfold strings.TrimSpace removeQuotes
    congr 1
    simp only [hp, List.filter_append]
    rw [List.filter_eq_self.2 notq]
    exact trim_sandwich _ _ _ _ (sp pre hpre) (sp post hpost) hhead hlast
  · unfold stripSurrounding
    congr 1
    rw [hp]
    refine trim_sandwich _ _ _ _ hpre hpost ?_ ?_
    · intro c hc
      have h1 := hhead c hc
      have h2 : c ≠ '"' := fun e => hcore (e ▸ List.mem_of_mem_head? hc)
      simp [isQuoteOrSpace, h1, h2]
    · intro c hc
      have h1 := hlast c hc
      have h2 : c ≠ '"' := fun e => hcore (e ▸ List.mem_of_mem_getLast? hc)
      simp [isQuoteOrSpace, h1, h2]

/-- C7 as stated fails: with a comma missing between two quoted names the
quotes inside the piece are removed too, and the Modifier element is no part
of the piece at all. -/
theorem C7_counterexample :
    regexp.FindStringSubmatch re
        "(command: CloseWindow, value: \"\", modifier: [\"modkey\" \"Shift\"], key: \"q\")" =
      ["(command: CloseWindow, value: \"\", modifier: [\"modkey\" \"Shift\"], key: \"q\")",
       "CloseWindow", "", "\"modkey\" \"Shift\"", "q"] ∧
    extractLine
        "(command: CloseWindow, value: \"\", modifier: [\"modkey\" \"Shift\"], key: \"q\")" =
      [{ Command := "CloseWindow", Value := "", Modifier := ["modkey Shift"], Key := "q" }] ∧
    (strings.Split "\"modkey\" \"Shift\"" ',').map stripSurrounding = ["modkey\" \"Shift"] ∧
    ¬ ("modkey Shift".data <:+: "\"modkey\" \"Shift\"".data) := by
  decide

/-- C7 amended: the Modifier field is the capture split on commas, each piece
in order with every double quote removed, wherever it stands, and then its
surrounding white space stripped; Scenario B. -/
theorem C7_modifier_cleanup (line whole c v m k : String)
    (h : regexp.FindStringSubmatch re line = [whole, c, v, m, k]) :
    extractLine line =
      [{ Command := c, Value := v,
         Modifier := (strings.Split m ',').map
           (fun piece => strings.TrimSpace (removeQuotes piece)),
         Key := k }] ∧
    modifierStrings "\"modkey\",\"Shift\"" = ["modkey", "Shift"] ∧
    extractLine "(command: GotoTag, value: \"1\", modifier: [\"modkey\",\"Shift\"], key: \"1\")" =
      [{ Command := "GotoTag", Value := "1", Modifier := ["modkey", "Shift"], Key := "1" }] := by
  refine ⟨?_, by decide, by decide⟩
  have hm : modifierStrings m =
      (strings.Split m ',').map (fun piece => strings.TrimSpace (removeQuotes piece)) := by
    unfold modifierStrings
    apply List.map_congr_left
    intro piece _
    rw [ReplaceAll_quote_eq_removeQuotes]
  simp [extractLine, h, hm]

/-- Witness of C7 amended, at a line with white space around the quoted names. -/
theorem C7_modifier_cleanup_witness :
    extractLine "(command: SwapTags, value: \"\", modifier: [ \"modkey\" , \"Shift\" ], key: \"w\")" =
      [{ Command := "SwapTags", Value := "",
         Modifier := (strings.Split " \"modkey\" , \"Shift\" " ',').map
           (fun piece => strings.TrimSpace (removeQuotes piece)),
         Key := "w" }] ∧
    modifierStrings "\"modkey\",\"Shift\"" = ["modkey", "Shift"] ∧
    extractLine "(command: GotoTag, value: \"1\", modifier: [\"modkey\",\"Shift\"], key: \"1\")" =
      [{ Command := "GotoTag", Value := "1", Modifier := ["modkey", "Shift"], Key := "1" }] :=
  C7_modifier_cleanup
    "(command: SwapTags, value: \"\", modifier: [ \"modkey\" , \"Shift\" ], key: \"w\")"
    "(command: SwapTags, value: \"\", modifier: [ \"modkey\" , \"Shift\" ], key: \"w\")"
    "SwapTags" "" " \"modkey\" , \"Shift\" " "w" (by decide)

/-- C8: an empty modifier capture gives the one-element sequence holding the
empty string, not the empty sequence; Scenario D. -/
theorem C8_empty_modifier_list (line whole c v k : String)
    (h : regexp.FindStringSubmatch re line = [whole, c, v, "", k]) :
    extractLine line = [{ Command := c, Value := v, Modifier := [""], Key := k }] ∧
    (∀ kb ∈ extractLine line, kb.Modifier.length = 1 ∧ kb.Modifier ≠ []) ∧
    extractLine "(command: UnknownCmd, value: \"\", modifier: [], key: \"x\")" =
      [{ Command := "UnknownCmd", Value := "", Modifier := [""], Key := "x" }] ∧
    getDescription "UnknownCmd" "" = "UnknownCmd" := by
  have e : extractLine line = [{ Command := c, Value := v, Modifier := [""], Key := k }] := by
    have hm : modifierStrings "" = [""] := by decide
    simp [extractLine, h, hm]
  refine ⟨e, ?_, by decide, by decide⟩
  intro kb hkb
  rw [e] at hkb
  simp at hkb
  subst hkb
  simp

/-- Witness of C8 at the line of Scenario D. -/
theorem C8_empty_modifier_list_witness :
    extractLine "(command: UnknownCmd, value: \"\", modifier: [], key: \"x\")" =
      [{ Command := "UnknownCmd", Value := "", Modifier := [""], Key := "x" }] ∧
    (∀ kb ∈ extractLine "(command: UnknownCmd, value: \"\", modifier: [], key: \"x\")",
      kb.Modifier.length = 1 ∧ kb.Modifier ≠ []) ∧
    extractLine "(command: UnknownCmd, value: \"\", modifier: [], key: \"x\")" =
      [{ Command := "UnknownCmd", Value := "", Modifier := [""], Key := "x" }] ∧
    getDescription "UnknownCmd" "" = "UnknownCmd" :=
  C8_empty_modifier_list "(command: UnknownCmd, value: \"\", modifier: [], key: \"x\")"
    "(command: UnknownCmd, value: \"\", modifier: [], key: \"x\")" "UnknownCmd" "" "x"
    (by decide)

/-! ## The table built by `main` -/

theorem fillRows_rowCount (i : Nat) (kbs : List KeyBind) (t : tview.Table)
    (h : t.rowCount = i + 1) : (fillRows i kbs t).rowCount = i + 1 + kbs.length := by
  induction kbs generalizing i t with
  | nil => simpa [fillRows] using h
  | cons kb rest ih =>
    rw [fillRows, ih]
    · simp only [List.length_cons]; omega
    · simp only [tview.Table.SetCell, h]; omega

theorem fillRows_cell_low (i : Nat) (kbs : List KeyBind) (t : tview.Table) (r c : Nat)
    (h : r ≤ i) : (fillRows i kbs t).cell r c = t.cell r c := by
  induction kbs generalizing i t with
  | nil => rfl
  | cons kb rest ih =>
    rw [fillRows, ih (i + 1) _ (by omega)]
    have : r ≠ i + 1 := by omega
    simp [tview.Table.SetCell, this]

theorem fillRows_row (i : Nat) (kbs : List KeyBind) (t : tview.Table) (j : Nat) (kb : KeyBind)
    (h : kbs[j]? = some kb) : rowTexts (fillRows i kbs t) (i + 1 + j) = renderRow kb := by
  induction kbs generalizing i t j with
  | nil => simp at h
  | cons kb0 rest ih =>
    cases j with
    | zero =>
      simp only [List.getElem?_cons_zero, Option.some.injEq] at h
      subst h
      simp only [rowTexts, fillRows, Nat.add_zero]
      rw [fillRows_cell_low _ _ _ _ _ (Nat.le_refl _), fillRows_cell_low _ _ _ _ _ (Nat.le_refl _),
        fillRows_cell_low _ _ _ _ _ (Nat.le_refl _)]
      simp [tview.Table.SetCell, renderRow, tview.NewTableCell, tview.TableCell.SetExpansion]
    | succ j =>
      simp only [List.getElem?_cons_succ] at h
      rw [fillRows, show i + 1 + (j + 1) = i + 1 + 1 + j by omega]
      exact ih (i + 1) _ j h

theorem buildTable_row (kbs : List KeyBind) (j : Nat) (kb : KeyBind)
    (h : kbs[j]? = some kb) : rowTexts (buildTable kbs) (j + 1) = renderRow kb := by
  unfold buildTable
  rw [show j + 1 = 0 + 1 + j by omega]
  exact fillRows_row 0 kbs _ j kb h

/-- C9: the table has one header row and one row per keybinding, in order:
row 0 is the three labels, row i+1 is the description, the modifiers joined
with a comma and a space, and the key of the i-th keybinding. -/
theorem C9_table_rows (kbs : List KeyBind) :
    (buildTable kbs).rowCount = kbs.length + 1 ∧
    rowTexts (buildTable kbs) 0 = [some "Command", some "Modifier", some "Key"] ∧
    (List.range kbs.length).map (fun i => rowTexts (buildTable kbs) (i + 1)) =
      kbs.map (fun kb => [some (getDescription kb.Command kb.Value),
        some (strings.Join kb.Modifier ", "), some kb.Key]) ∧
    strings.Join ["modkey", "Shift"] ", " = "modkey, Shift" := by
  refine ⟨?_, ?_, ?_, by decide⟩
  · unfold buildTable
    rw [fillRows_rowCount]
    · omega
    · simp [tview.Table.SetCell, tview.NewTable]
  · unfold buildTable rowTexts
    simp only [fillRows_cell_low _ _ _ _ _ (Nat.le_refl 0)]
    simp [tview.Table.SetCell, tview.NewTableCell]
  · apply List.ext_getElem
    · simp
    · intro i h1 h2
      simp only [List.length_map, List.length_range] at h1
      simp only [List.getElem_map, List.getElem_range]
      exact buildTable_row kbs i kbs[i] (by simp [h1])

/-! ## Failure of the file -/

/-- C10: when the file cannot be opened, or the scanner reports an error after
the loop, `parseConfig` panics whatever lines were read: no KeyBind reaches the
caller and `main` builds no table. -/
theorem C10_failure_is_fatal (file : ConfigFile)
    (h : file.openErr ≠ none ∨ file.scanErr ≠ none) :
    (∃ err, parseConfig file = .error err ∧ Lunacy.main file = .error err) ∧
    (∀ keybinds, parseConfig file ≠ .ok keybinds) ∧
    (∀ table, Lunacy.main file ≠ .ok table) := by
  have key : ∃ err, parseConfig file = .error err := by
    cases ho : file.openErr with
    | some e => exact ⟨e, by simp [parseConfig, ho]⟩
    | none =>
      cases hs : file.scanErr with
      | some e => exact ⟨e, by simp [parseConfig, ho, hs]⟩
      | none => simp [ho, hs] at h
  obtain ⟨err, herr⟩ := key
  have hmain : Lunacy.main file = .error err := by simp [Lunacy.main, herr]
  refine ⟨⟨err, herr, hmain⟩, ?_, ?_⟩
  · intro keybinds hk
    rw [herr] at hk
    cases hk
  · intro table ht
    rw [hmain] at ht
    cases ht

/-- Witness of C10: a read error after a matching line was scanned. -/
theorem C10_failure_is_fatal_witness :
    (∃ err,
      parseConfig { openErr := none,
                    lines := ["(command: CloseWindow, value: \"\", modifier: [], key: \"q\")"],
                    scanErr := some "read error" } = .error err ∧
      Lunacy.main { openErr := none,
                    lines := ["(command: CloseWindow, value: \"\", modifier: [], key: \"q\")"],
                    scanErr := some "read error" } = .error err) ∧
    (∀ keybinds,
      parseConfig { openErr := none,
                    lines := ["(command: CloseWindow, value: \"\", modifier: [], key: \"q\")"],
                    scanErr := some "read error" } ≠ .ok keybinds) ∧
    (∀ table,
      Lunacy.main { openErr := none,
                    lines := ["(command: CloseWindow, value: \"\", modifier: [], key: \"q\")"],
                    scanErr := some "read error" } ≠ .ok table) :=
  C10_failure_is_fatal
    { openErr := none,
      lines := ["(command: CloseWindow, value: \"\", modifier: [], key: \"q\")"],
      scanErr := some "read error" }
    (Or.inr (by simp))

/-! ## Content around a record -/

theorem matchItems_re_head_ne (c : Char) (t : List Char) (h : c ≠ '(') :
    regexp.matchItems re (c :: t) = none :=
  regexp.matchItems_lit_head_ne '(' c _ t _ (fun e => h e.symm)

/-- Text without an opening parenthesis before a text is skipped by the
search for the leftmost match. -/
theorem findSubmatch_skip (p t : List Char) (hp : '(' ∉ p) :
    regexp.findSubmatch re (p ++ t) = regexp.findSubmatch re t := by
  induction p with
  | nil => rfl
  | cons c p0 ih =>
    have hc : c ≠ '(' := fun e => hp (by simp [e])
    have h0 : '(' ∉ p0 := fun e => hp (by simp [e])
    have hm := matchItems_re_head_ne c (p0 ++ t) hc
    have step : regexp.findSubmatch re (c :: (p0 ++ t)) = regexp.findSubmatch re (p0 ++ t) := by
      simp [regexp.findSubmatch, regexp.submatchAt, hm]
    rw [List.cons_append, step]
    exact ih h0

/-- A well-formed record with text around it, none of it an opening
parenthesis before the record, gives the record. -/
theorem extractLine_around_record (p s w v m k : String) (hp : '(' ∉ p.data)
    (hne : w ≠ "") (hw : ∀ c ∈ w.data, isWord c = true)
    (hv : '"' ∉ v.data) (hm : ']' ∉ m.data) (hk : '"' ∉ k.data)
    (hline : '\n' ∉ (recordLine w v m k).data) :
    extractLine (p ++ recordLine w v m k ++ s) =
      [{ Command := w, Value := v, Modifier := modifierStrings m, Key := k }] := by
  have hvl : '\n' ∉ v.data := by
    intro h
    apply hline
    simp [recordLine_data, recordChars, h]
  have hkl : '\n' ∉ k.data := by
    intro h
    apply hline
    simp [recordLine_data, recordChars, h]
  have hne2 : w.data ≠ [] := by
    intro h
    apply hne
    cases w
    simp_all
  have h := matchItems_record w.data v.data m.data k.data s.data hne2 hw hv hvl hm hk hkl
  have hd : (p ++ recordLine w v m k ++ s).data =
      p.data ++ (recordChars w.data v.data m.data k.data ++ s.data) := by
    simp [String.data_append, recordLine_data]
  have hf := findSubmatch_of_match _ _ _ h
  apply extractLine_of_findSubmatch _ _ w.data v.data m.data k.data
  rw [hd, findSubmatch_skip _ _ hp, hf]

/-- C13: content around a well-formed record on its line is ignored: with a
text without opening parenthesis before it and any text after it, the line
gives the same single KeyBind as the record alone. -/
theorem C13_surrounding_content_ignored (p s w v m k : String) (hp : '(' ∉ p.data)
    (hne : w ≠ "") (hw : ∀ c ∈ w.data, isWord c = true)
    (hv : '"' ∉ v.data) (hm : ']' ∉ m.data) (hk : '"' ∉ k.data)
    (hline : '\n' ∉ (recordLine w v m k).data) :
    extractLine (p ++ recordLine w v m k ++ s) = extractLine (recordLine w v m k) ∧
    extractLine (p ++ recordLine w v m k ++ s) =
      [{ Command := w, Value := v, Modifier := modifierStrings m, Key := k }] ∧
    extractLine
        "        (command: Execute, value: \"rofi -show drun\", modifier: [\"modkey\"], key: \"space\")," =
      [{ Command := "Execute", Value := "rofi -show drun", Modifier := ["modkey"],
         Key := "space" }] := by
  have h1 := extractLine_around_record p s w v m k hp hne hw hv hm hk hline
  have hvl : '\n' ∉ v.data := by
    intro h
    apply hline
    simp [recordLine_data, recordChars, h]
  have hkl : '\n' ∉ k.data := by
    intro h
    apply hline
    simp [recordLine_data, recordChars, h]
  have h2 := extractLine_recordLine w v m k hne hw hv hvl hm hk hkl
  exact ⟨by rw [h1, h2], h1, by decide⟩

/-- Witness of C13: indentation before and a comma after the Scenario B record. -/
theorem C13_surrounding_content_ignored_witness :
    extractLine ("    " ++ recordLine "GotoTag" "1" "\"modkey\",\"Shift\"" "1" ++ ",") =
      extractLine (recordLine "GotoTag" "1" "\"modkey\",\"Shift\"" "1") ∧
    extractLine ("    " ++ recordLine "GotoTag" "1" "\"modkey\",\"Shift\"" "1" ++ ",") =
      [{ Command := "GotoTag", Value := "1",
         Modifier := modifierStrings "\"modkey\",\"Shift\"", Key := "1" }] ∧
    extractLine
        "        (command: Execute, value: \"rofi -show drun\", modifier: [\"modkey\"], key: \"space\")," =
      [{ Command := "Execute", Value := "rofi -show drun", Modifier := ["modkey"],
         Key := "space" }] :=
  C13_surrounding_content_ignored "    " "," "GotoTag" "1" "\"modkey\",\"Shift\"" "1"
    (by decide) (by decide) (by decide) (by decide) (by decide) (by decide) (by decide)

/-! ## What every extracted record satisfies -/

/-- A record extracted from a line is the leftmost match of the pattern in
the line, and its fields are the captures of that match. -/
theorem extractLine_sound (line : String) (kb : KeyBind) (h : kb ∈ extractLine line) :
    ∃ pre w v m k post, line.data = pre ++ (recordChars w v m k ++ post) ∧
      regexp.findSubmatch re line.data = [recordChars w v m k, w, v, m, k] ∧
      kb = { Command := ⟨w⟩, Value := ⟨v⟩, Modifier := modifierStrings ⟨m⟩, Key := ⟨k⟩ } ∧
      w ≠ [] ∧ (∀ c ∈ w, isWord c = true) ∧ (∀ c ∈ v, isAny c = true) ∧
      (∀ c ∈ m, notRBracket c = true) ∧ (∀ c ∈ k, isAny c = true) := by
  rcases findSubmatch_sound line.data with h0 | ⟨pre, w, v, m, k, post, e, hf, rest⟩
  · rw [extractLine_of_no_match line h0] at h
    simp at h
  · rw [extractLine_of_findSubmatch line _ w v m k hf] at h
    simp only [List.mem_singleton] at h
    exact ⟨pre, w, v, m, k, post, e, hf, h, rest⟩

/-- The class `\w` is the letters, the digits and the underscore of ASCII. -/
theorem isWord_iff (c : Char) :
    isWord c = true ↔
      ('A'.toNat ≤ c.toNat ∧ c.toNat ≤ 'Z'.toNat) ∨ ('a'.toNat ≤ c.toNat ∧ c.toNat ≤ 'z'.toNat) ∨
      ('0'.toNat ≤ c.toNat ∧ c.toNat ≤ '9'.toNat) ∨ c = '_' := by
  simp only [isWord, Char.isAlphanum, Char.isAlpha, Char.isUpper, Char.isLower, Char.isDigit,
    Bool.or_eq_true, Bool.and_eq_true, decide_eq_true_eq, beq_iff_eq, Char.toNat,
    UInt32.le_def, Fin.le_def, ge_iff_le]
  constructor
  · rintro ((((h | h) | h)) | h)
    · exact Or.inl h
    · exact Or.inr (Or.inl h)
    · exact Or.inr (Or.inr (Or.inl h))
    · exact Or.inr (Or.inr (Or.inr h))
  · rintro (h | h | h | h)
    · exact Or.inl (Or.inl (Or.inl h))
    · exact Or.inl (Or.inl (Or.inr h))
    · exact Or.inl (Or.inr h)
    · exact Or.inr h

/-- C14: the Command of every extracted KeyBind is non-empty and made of
letters, digits and underscores of ASCII only. -/
theorem C14_command_is_word (line : String) (kb : KeyBind) (h : kb ∈ extractLine line) :
    kb.Command ≠ "" ∧ 0 < kb.Command.length ∧
    (∀ c ∈ kb.Command.data, isWord c = true) ∧
    (∀ c ∈ kb.Command.data,
      ('A'.toNat ≤ c.toNat ∧ c.toNat ≤ 'Z'.toNat) ∨ ('a'.toNat ≤ c.toNat ∧ c.toNat ≤ 'z'.toNat) ∨
      ('0'.toNat ≤ c.toNat ∧ c.toNat ≤ '9'.toNat) ∨ c = '_') := by
  obtain ⟨pre, w, v, m, k, post, _, _, hkb, hne, hw, _⟩ := extractLine_sound line kb h
  subst hkb
  refine ⟨?_, ?_, hw, fun c hc => (isWord_iff c).1 (hw c hc)⟩
  · intro e
    apply hne
    have := congrArg String.data e
    simpa using this
  · cases w with
    | nil => exact absurd rfl hne
    | cons c cs => simp [String.length]

/-- Witness of C14 at the line of Scenario D. -/
theorem C14_command_is_word_witness :
    ({ Command := "UnknownCmd", Value := "", Modifier := [""], Key := "x" } : KeyBind).Command
      ≠ "" ∧
    0 < ({ Command := "UnknownCmd", Value := "", Modifier := [""], Key := "x" } :
      KeyBind).Command.length ∧
    (∀ c ∈ ({ Command := "UnknownCmd", Value := "", Modifier := [""], Key := "x" } :
      KeyBind).Command.data, isWord c = true) ∧
    (∀ c ∈ ({ Command := "UnknownCmd", Value := "", Modifier := [""], Key := "x" } :
      KeyBind).Command.data,
      ('A'.toNat ≤ c.toNat ∧ c.toNat ≤ 'Z'.toNat) ∨ ('a'.toNat ≤ c.toNat ∧ c.toNat ≤ 'z'.toNat) ∨
      ('0'.toNat ≤ c.toNat ∧ c.toNat ≤ '9'.toNat) ∨ c = '_') :=
  C14_command_is_word "(command: UnknownCmd, value: \"\", modifier: [], key: \"x\")"
    { Command := "UnknownCmd", Value := "", Modifier := [""], Key := "x" } (by decide)

theorem parseLines_length_le (lines : List String) :
    (parseLines lines).length ≤ lines.length := by
  induction lines with
  | nil => simp [parseLines_eq]
  | cons line rest ih =>
    rw [parseLines_cons, List.length_append, List.length_cons]
    have := extractLine_length_le line
    omega

/-- C15: a line gives at most one KeyBind, so there are never more records
than lines; of two well-formed records on one line only the first is produced. -/
theorem C15_one_record_per_line (line : String) (lines : List String)
    (sep w v m k w2 v2 m2 k2 : String)
    (hne : w ≠ "") (hw : ∀ c ∈ w.data, isWord c = true)
    (hv : '"' ∉ v.data) (hm : ']' ∉ m.data) (hk : '"' ∉ k.data)
    (hline : '\n' ∉ (recordLine w v m k).data)
    (hne2 : w2 ≠ "") (hw2 : ∀ c ∈ w2.data, isWord c = true)
    (hv2 : '"' ∉ v2.data) (hm2 : ']' ∉ m2.data) (hk2 : '"' ∉ k2.data)
    (hline2 : '\n' ∉ (recordLine w2 v2 m2 k2).data) :
    (extractLine line).length ≤ 1 ∧
    (parseLines lines).length ≤ lines.length ∧
    extractLine (recordLine w2 v2 m2 k2) =
      [{ Command := w2, Value := v2, Modifier := modifierStrings m2, Key := k2 }] ∧
    extractLine (recordLine w v m k ++ sep ++ recordLine w2 v2 m2 k2) =
      [{ Command := w, Value := v, Modifier := modifierStrings m, Key := k }] := by
  have hvl : '\n' ∉ v2.data := by
    intro h
    apply hline2
    simp [recordLine_data, recordChars, h]
  have hkl : '\n' ∉ k2.data := by
    intro h
    apply hline2
    simp [recordLine_data, recordChars, h]
  refine ⟨extractLine_length_le line, parseLines_length_le lines,
    extractLine_recordLine w2 v2 m2 k2 hne2 hw2 hv2 hvl hm2 hk2 hkl, ?_⟩
  have h := extractLine_around_record "" (sep ++ recordLine w2 v2 m2 k2) w v m k (by simp)
    hne hw hv hm hk hline
  have e : "" ++ recordLine w v m k ++ (sep ++ recordLine w2 v2 m2 k2) =
      recordLine w v m k ++ sep ++ recordLine w2 v2 m2 k2 := by
    apply String.ext
    simp [String.data_append]
  rw [e] at h
  exact h

/-- Witness of C15: the records of Scenario C and Scenario D on one line. -/
theorem C15_one_record_per_line_witness :
    (extractLine "keybind: [").length ≤ 1 ∧
    (parseLines ["keybind: [", "]"]).length ≤ ["keybind: [", "]"].length ∧
    extractLine (recordLine "UnknownCmd" "" "" "x") =
      [{ Command := "UnknownCmd", Value := "", Modifier := modifierStrings "", Key := "x" }] ∧
    extractLine (recordLine "ToggleFullScreen" "" "\"modkey\"" "f" ++ ", " ++
        recordLine "UnknownCmd" "" "" "x") =
      [{ Command := "ToggleFullScreen", Value := "", Modifier := modifierStrings "\"modkey\"",
         Key := "f" }] :=
  C15_one_record_per_line "keybind: [" ["keybind: [", "]"] ", "
    "ToggleFullScreen" "" "\"modkey\"" "f" "UnknownCmd" "" "" "x"
    (by decide) (by decide) (by decide) (by decide) (by decide) (by decide)
    (by decide) (by decide) (by decide) (by decide) (by decide) (by decide)

/-! ## The shape of the modifier sequence -/

theorem splitChars_length (sep : Char) (l : List Char) :
    (strings.splitChars sep l).length = 1 + l.count sep := by
  induction l with
  | nil => simp [strings.splitChars]
  | cons c cs ih =>
    by_cases hc : c = sep
    · subst hc
      simp [strings.splitChars, ih]
      omega
    · have hc2 : ¬ (c == sep) = true := by simpa using hc
      cases hs : strings.splitChars sep cs with
      | nil =>
        rw [hs] at ih
        simp at ih
        omega
      | cons piece pieces =>
        rw [hs] at ih
        simp [strings.splitChars, hc, hs, List.count_cons] at ih ⊢
        omega

theorem modifierStrings_length (capture : String) :
    (modifierStrings capture).length = 1 + capture.data.count ',' := by
  simp [modifierStrings, strings.Split, splitChars_length]

theorem mem_of_mem_rdropWhile (p : Char → Bool) (l : List Char) (c : Char)
    (h : c ∈ l.rdropWhile p) : c ∈ l := by
  unfold List.rdropWhile at h
  rw [List.mem_reverse] at h
  exact List.mem_reverse.1 ((List.dropWhile_sublist p).subset h)

/-- Dropping at the right end keeps a first element that is not dropped. -/
theorem head_rdropWhile (p : Char → Bool) (d : List Char)
    (hd : ∀ c ∈ d.head?, p c = false) : ∀ c ∈ (d.rdropWhile p).head?, p c = false := by
  induction d using List.reverseRecOn with
  | nil => simp
  | append_singleton d0 x ih =>
    by_cases hx : p x = true
    · rw [List.rdropWhile_concat_pos _ _ _ hx]
      apply ih
      intro c hc
      apply hd c
      cases d0 with
      | nil => simp at hc
      | cons y ys => simpa using hc
    · rw [List.rdropWhile_concat_neg _ _ _ hx]
      exact hd

/-- What `strings.TrimSpace` returns neither starts nor ends with white
space, and holds only characters of its argument. -/
theorem TrimSpace_spec (s : String) :
    (∀ c ∈ (strings.TrimSpace s).data.head?, unicode.IsSpace c = false) ∧
    (∀ c ∈ (strings.TrimSpace s).data.getLast?, unicode.IsSpace c = false) ∧
    (∀ c ∈ (strings.TrimSpace s).data, c ∈ s.data) := by
  refine ⟨?_, ?_, ?_⟩
  · apply head_rdropWhile
    intro c hc
    have := List.head?_dropWhile_not unicode.IsSpace s.data
    rw [Option.mem_def.1 hc] at this
    simpa using this
  · intro c hc
    simp only [strings.TrimSpace] at hc
    by_cases hl : (s.data.dropWhile unicode.IsSpace).rdropWhile unicode.IsSpace = []
    · rw [hl] at hc
      simp at hc
    · rw [List.getLast?_eq_getLast _ hl] at hc
      have := List.rdropWhile_last_not unicode.IsSpace _ hl
      simp only [Option.mem_def, Option.some.injEq] at hc
      rw [hc] at this
      simpa using this
  · intro c hc
    have := mem_of_mem_rdropWhile _ _ _ hc
    exact (List.dropWhile_sublist _).subset this

theorem modifierStrings_elements (capture x : String) (hx : x ∈ modifierStrings capture) :
    '"' ∉ x.data ∧ (∀ c ∈ x.data.head?, unicode.IsSpace c = false) ∧
    (∀ c ∈ x.data.getLast?, unicode.IsSpace c = false) := by
  simp only [modifierStrings, List.mem_map] at hx
  obtain ⟨piece, _, rfl⟩ := hx
  obtain ⟨h1, h2, h3⟩ := TrimSpace_spec (strings.ReplaceAll piece '"' "")
  refine ⟨?_, h1, h2⟩
  intro hq
  have := h3 _ hq
  rw [ReplaceAll_quote_eq_removeQuotes] at this
  simp [removeQuotes] at this

/-- C16: the Modifier of every extracted KeyBind has one element more than the
captured modifier list has commas, so it is never empty, and no element holds
a double quote or starts or ends with white space. -/
theorem C16_modifier_shape (line : String) (kb : KeyBind) (h : kb ∈ extractLine line) :
    kb.Modifier.length = 1 + ((regexp.FindStringSubmatch re line).getD 3 "").data.count ',' ∧
    kb.Modifier ≠ [] ∧
    (∀ x ∈ kb.Modifier, '"' ∉ x.data ∧
      (∀ c ∈ x.data.head?, unicode.IsSpace c = false) ∧
      (∀ c ∈ x.data.getLast?, unicode.IsSpace c = false)) := by
  have hkb : kb.Modifier = modifierStrings ((regexp.FindStringSubmatch re line).getD 3 "") := by
    unfold extractLine at h
    simp only at h
    split at h
    · simp only [List.mem_singleton] at h
      rw [h]
    · simp at h
  have hlen := modifierStrings_length ((regexp.FindStringSubmatch re line).getD 3 "")
  rw [← hkb] at hlen
  refine ⟨hlen, ?_, ?_⟩
  · intro e
    rw [e] at hlen
    simp at hlen
    omega
  · intro x hx
    rw [hkb] at hx
    exact modifierStrings_elements _ x hx

/-- Witness of C16: a modifier list with spaces, a quoted and a bare name and
a trailing comma. -/
theorem C16_modifier_shape_witness :
    (["modkey", "Shift", ""] : List String).length =
      1 + ((regexp.FindStringSubmatch re
        "(command: SwapTags, value: \"\", modifier: [ \"modkey\" , Shift,], key: \"w\")").getD 3
          "").data.count ',' ∧
    (["modkey", "Shift", ""] : List String) ≠ [] ∧
    (∀ x ∈ (["modkey", "Shift", ""] : List String), '"' ∉ x.data ∧
      (∀ c ∈ x.data.head?, unicode.IsSpace c = false) ∧
      (∀ c ∈ x.data.getLast?, unicode.IsSpace c = false)) :=
  C16_modifier_shape
    "(command: SwapTags, value: \"\", modifier: [ \"modkey\" , Shift,], key: \"w\")"
    { Command := "SwapTags", Value := "", Modifier := ["modkey", "Shift", ""], Key := "w" }
    (by decide)

/-! ## Where the value and the key end -/

namespace regexp

/-- A non-greedy group is as short as possible: at every place inside what it
captured, the continuation had failed. -/
theorem lazyStar_minimal (cls : Char → Bool) (k : Cont) (inp cap : List Char)
    (r : List (List Char) × List Char) (h : lazyStar cls k inp = some (cap, r)) :
    ∀ a c b rest, cap = a ++ c :: b → inp = cap ++ rest → k (c :: (b ++ rest)) = none := by
  induction inp generalizing cap with
  | nil =>
    intro a c b rest hcap hinp
    rw [hcap] at hinp
    simp at hinp
  | cons x xs ih =>
    intro a c b rest hcap hinp
    cases hk : k (x :: xs) with
    | some r0 =>
      simp only [lazyStar, hk, Option.some.injEq, Prod.mk.injEq] at h
      rw [← h.1] at hcap
      simp at hcap
    | none =>
      by_cases hc : cls x = true
      · cases hg : lazyStar cls k xs with
        | none => simp [lazyStar, hk, hc, hg] at h
        | some p =>
          obtain ⟨cap0, r0⟩ := p
          simp only [lazyStar, hk, hc, if_true, hg, Option.map_some', Option.some.injEq,
            Prod.mk.injEq] at h
          obtain ⟨rfl, rfl⟩ := h
          simp only [List.cons_append, List.cons.injEq, true_and] at hinp
          cases a with
          | nil =>
            simp only [List.nil_append, List.cons.injEq] at hcap
            obtain ⟨rfl, rfl⟩ := hcap
            rw [← hinp]
            exact hk
          | cons y a0 =>
            simp only [List.cons_append, List.cons.injEq] at hcap
            exact ih cap0 hg a0 c b rest hcap.2 hinp
      · simp [lazyStar, hk, hc] at h

/-- A non-greedy group finds a match whenever some run of its class is
followed by text that the continuation accepts. -/
theorem lazyStar_complete (cls : Char → Bool) (k : Cont) (run rest : List Char)
    (r : List (List Char) × List Char) (hrun : ∀ c ∈ run, cls c = true)
    (hk : k rest = some r) : lazyStar cls k (run ++ rest) ≠ none := by
  induction run with
  | nil =>
    cases rest with
    | nil => simp [lazyStar, hk]
    | cons d t => simp [lazyStar, hk]
  | cons c cs ih =>
    have hc : cls c = true := hrun c (by simp)
    have := ih (fun x hx => hrun x (by simp [hx]))
    cases hk0 : k (c :: (cs ++ rest)) with
    | some r0 => simp [lazyStar, hk0]
    | none =>
      cases hl : lazyStar cls k (cs ++ rest) with
      | none => exact absurd hl this
      | some p => simp [lazyStar, hk0, hc, hl]

theorem matchItems_capStarLazy_minimal (cls : Char → Bool) (rest : List Item)
    (inp : List Char) (r : List (List Char) × List Char)
    (h : matchItems (.capStarLazy cls :: rest) inp = some r) :
    ∃ cap caps inp', r = (cap :: caps, r.2) ∧ inp = cap ++ inp' ∧
      (∀ c ∈ cap, cls c = true) ∧ matchItems rest inp' = some (caps, r.2) ∧
      ∀ a c b, cap = a ++ c :: b → matchItems rest (c :: (b ++ inp')) = none := by
  cases hg : lazyStar cls (matchItems rest) inp with
  | none => simp [matchItems, hg] at h
  | some p =>
    obtain ⟨cap, caps, s⟩ := p
    simp only [matchItems, hg, Option.map_some', Option.some.injEq] at h
    subst h
    obtain ⟨h1, inp', h2, h3⟩ := lazyStar_sound cls _ inp cap _ hg
    exact ⟨cap, caps, inp', rfl, h2, h1, h3,
      fun a c b hcap => lazyStar_minimal cls _ inp cap _ hg a c b inp' hcap h2⟩

end regexp

open regexp in
/-- The rest of the pattern matches every text that starts with a closing
quote of a value followed by a modifier list without `]` and a key without
line feed. -/
theorem reAfterValue_complete (M K z : List Char) (hM : ']' ∉ M) (hK : '\n' ∉ K) :
    matchItems reAfterValue (afterValueChars M K ++ z) ≠ none := by
  have e8 : matchItems [.lit "\")".data] ("\")".data ++ z) = some ([], z) := by
    rw [matchItems_lit_append]; rfl
  have e7 : lazyStar isAny (matchItems [.lit "\")".data]) (K ++ ("\")".data ++ z)) ≠ none :=
    lazyStar_complete isAny _ K _ _ (isAny_of_not_mem K hK) e8
  cases hl : lazyStar isAny (matchItems [.lit "\")".data]) (K ++ ("\")".data ++ z)) with
  | none => exact absurd hl e7
  | some p =>
    obtain ⟨cap, caps, s⟩ := p
    have e6 : matchItems [.lit "], key: \"".data, .capStarLazy isAny, .lit "\")".data]
        ("], key: \"".data ++ (K ++ ("\")".data ++ z))) = some (cap :: caps, s) := by
      rw [matchItems_lit_append]
      show (lazyStar isAny (matchItems [.lit "\")".data]) _).map _ = _
      rw [hl]
      rfl
    have e5 := matchItems_capStar_run notRBracket _ M _ s (cap :: caps)
      (notRBracket_of_not_mem M hM) (by intro d hd; simp at hd; subst hd; rfl) e6
    have e0 : afterValueChars M K ++ z = "\", modifier: [".data ++
        (M ++ ("], key: \"".data ++ (K ++ ("\")".data ++ z)))) := by
      simp [afterValueChars]
    rw [e0]
    show matchItems (.lit "\", modifier: [".data :: _) _ ≠ none
    rw [matchItems_lit_append, e5]
    simp

open regexp in
/-- The value and the key of a match are as short as the pattern allows: at
every place inside the value the rest of the pattern fails, and at every
place inside the key the closing `")` is not what follows. -/
theorem matchItems_re_minimal (inp : List Char) (caps : List (List Char)) (s : List Char)
    (h : matchItems re inp = some (caps, s)) :
    ∃ w v m k, caps = [w, v, m, k] ∧ inp = recordChars w v m k ++ s ∧
      (∀ a c b, v = a ++ c :: b →
        matchItems reAfterValue (c :: (b ++ (afterValueChars m k ++ s))) = none) ∧
      (∀ a c b, k = a ++ c :: b →
        matchItems [.lit "\")".data] (c :: (b ++ ("\")".data ++ s))) = none) := by
  obtain ⟨i1, e1, h⟩ := matchItems_lit_sound _ _ _ _ h
  obtain ⟨w, c1, i2, ec1, e2, _, _, h⟩ := matchItems_capPlus_sound _ _ _ _ h
  obtain ⟨i3, e3, h⟩ := matchItems_lit_sound _ _ _ _ h
  obtain ⟨v, c2, i4, ec2, e4, _, h, minV⟩ := matchItems_capStarLazy_minimal _ _ _ _ h
  obtain ⟨i5, e5, h⟩ := matchItems_lit_sound _ _ _ _ h
  obtain ⟨m, c3, i6, ec3, e6, _, h⟩ := matchItems_capStar_sound _ _ _ _ h
  obtain ⟨i7, e7, h⟩ := matchItems_lit_sound _ _ _ _ h
  obtain ⟨k, c4, i8, ec4, e8, _, h, minK⟩ := matchItems_capStarLazy_minimal _ _ _ _ h
  obtain ⟨i9, e9, h⟩ := matchItems_lit_sound _ _ _ _ h
  simp only [matchItems, Option.some.injEq, Prod.mk.injEq] at h
  obtain ⟨rfl, rfl⟩ := h
  simp only [Prod.mk.injEq, and_true] at ec1 ec2 ec3 ec4
  subst ec4 ec3 ec2 ec1
  subst e9 e8 e7 e6 e5
  refine ⟨w, v, m, k, rfl, ?_, ?_, ?_⟩
  · subst e4 e3 e2 e1
    simp [recordChars]
  · intro a c b hv
    have := minV a c b hv
    simpa [afterValueChars, reAfterValue] using this
  · intro a c b hk
    exact minK a c b hk

theorem findSubmatch_first (inp : List Char) :
    regexp.findSubmatch re inp = [] ∨
    ∃ pre t caps s, inp = pre ++ t ∧ regexp.matchItems re t = some (caps, s) ∧
      regexp.findSubmatch re inp = t.take (t.length - s.length) :: caps := by
  induction inp with
  | nil =>
    cases hm : regexp.matchItems re [] with
    | none => left; simp [regexp.findSubmatch, regexp.submatchAt, hm]
    | some p =>
      right
      exact ⟨[], [], p.1, p.2, rfl, hm, findSubmatch_of_match _ _ _ hm⟩
  | cons c cs ih =>
    cases hm : regexp.matchItems re (c :: cs) with
    | some p =>
      right
      exact ⟨[], c :: cs, p.1, p.2, rfl, hm, findSubmatch_of_match _ _ _ hm⟩
    | none =>
      have step : regexp.findSubmatch re (c :: cs) = regexp.findSubmatch re cs := by
        simp [regexp.findSubmatch, regexp.submatchAt, hm]
      rcases ih with h0 | ⟨pre, t, caps, s, e, hmt, hf⟩
      · left; rw [step, h0]
      · right
        exact ⟨c :: pre, t, caps, s, by simp [e], hmt, by rw [step, hf]⟩

/-- Every extracted record comes from a place of the line where the pattern
matches with its value and key as short as possible. -/
theorem extractLine_minimal (line : String) (kb : KeyBind) (h : kb ∈ extractLine line) :
    ∃ pre w v m k post, line.data = pre ++ (recordChars w v m k ++ post) ∧
      kb = { Command := ⟨w⟩, Value := ⟨v⟩, Modifier := modifierStrings ⟨m⟩, Key := ⟨k⟩ } ∧
      (∀ a c b, v = a ++ c :: b →
        regexp.matchItems reAfterValue (c :: (b ++ (afterValueChars m k ++ post))) = none) ∧
      (∀ a c b, k = a ++ c :: b →
        regexp.matchItems [.lit "\")".data] (c :: (b ++ ("\")".data ++ post))) = none) := by
  rcases findSubmatch_first line.data with h0 | ⟨pre, t, caps, s, e, hmt, hf⟩
  · rw [extractLine_of_no_match line h0] at h
    simp at h
  · obtain ⟨w, v, m, k, rfl, et, minV, minK⟩ := matchItems_re_minimal t caps s hmt
    rw [extractLine_of_findSubmatch line _ w v m k hf] at h
    simp only [List.mem_singleton] at h
    exact ⟨pre, w, v, m, k, s, by rw [e, et], h, minV, minK⟩

/-- C12 as stated fails: escaped quotes inside the value stay in the Value,
and a quote inside the key that is not followed by `)` stays in the Key. -/
theorem C12_counterexample :
    extractLine
        "(command: Execute, value: \"echo \\\"hi\\\"\", modifier: [\"modkey\"], key: \"e\")" =
      [{ Command := "Execute", Value := "echo \\\"hi\\\"", Modifier := ["modkey"],
         Key := "e" }] ∧
    '"' ∈ "echo \\\"hi\\\"".data ∧
    extractLine "(command: CloseWindow, value: \"\", modifier: [], key: \"a\"b\")" =
      [{ Command := "CloseWindow", Value := "", Modifier := [""], Key := "a\"b" }] ∧
    '"' ∈ "a\"b".data := by
  decide

/-- C12 amended: the key ends at the first double quote followed by `)`, and
the value at the first double quote from which the rest of a record follows:
the Key holds no double quote followed by `)`, and no double quote inside the
Value is followed in the line by `, modifier: [M], key: "K")` with M free of
`]` and K free of line feeds. -/
theorem C12_fields_end_at_delimiter (line : String) (kb : KeyBind)
    (h : kb ∈ extractLine line) :
    (∀ a b, kb.Key.data ≠ a ++ '"' :: ')' :: b) ∧
    ∃ pre m post,
      line.data = pre ++ (recordChars kb.Command.data kb.Value.data m kb.Key.data ++ post) ∧
      ∀ a b M K z, kb.Value.data = a ++ '"' :: b → ']' ∉ M → '\n' ∉ K →
        '"' :: (b ++ (afterValueChars m kb.Key.data ++ post)) ≠ afterValueChars M K ++ z := by
  obtain ⟨pre, w, v, m, k, post, e, hkb, minV, minK⟩ := extractLine_minimal line kb h
  subst hkb
  refine ⟨?_, pre, m, post, e, ?_⟩
  · intro a b hk
    have h1 := minK a '"' (')' :: b) hk
    have h2 : '"' :: ((')' :: b) ++ ("\")".data ++ post)) =
        "\")".data ++ (b ++ ("\")".data ++ post)) := by simp
    rw [h2, regexp.matchItems_lit_append] at h1
    simp [regexp.matchItems] at h1
  · intro a b M K z hv hM hK heq
    have h1 := minV a '"' b hv
    rw [heq] at h1
    exact reAfterValue_complete M K z hM hK h1

/-- Witness of C12 amended, at the line with escaped quotes in the value. -/
theorem C12_fields_end_at_delimiter_witness :
    (∀ a b, "e".data ≠ a ++ '"' :: ')' :: b) ∧
    ∃ pre m post,
      "(command: Execute, value: \"echo \\\"hi\\\"\", modifier: [\"modkey\"], key: \"e\")".data =
        pre ++ (recordChars "Execute".data "echo \\\"hi\\\"".data m "e".data ++ post) ∧
      ∀ a b M K z, "echo \\\"hi\\\"".data = a ++ '"' :: b → ']' ∉ M → '\n' ∉ K →
        '"' :: (b ++ (afterValueChars m "e".data ++ post)) ≠ afterValueChars M K ++ z :=
  C12_fields_end_at_delimiter
    "(command: Execute, value: \"echo \\\"hi\\\"\", modifier: [\"modkey\"], key: \"e\")"
    { Command := "Execute", Value := "echo \\\"hi\\\"", Modifier := ["modkey"], Key := "e" }
    (by decide)

/-! ## Grouping and distinct descriptions -/

/-- C11 fails on the code: the rows follow the order of the file. With a
CloseWindow line between two Execute lines, the CloseWindow row stands between
the two Execute rows, so the keybindings are not grouped by command. -/
theorem C11_rows_not_grouped :
    parseConfig
      { openErr := none,
        lines :=
          ["(command: Execute, value: \"rofi -show drun\", modifier: [\"modkey\"], key: \"p\")",
           "(command: CloseWindow, value: \"\", modifier: [\"modkey\", \"Shift\"], key: \"q\")",
           "(command: Execute, value: \"alacritty\", modifier: [\"modkey\"], key: \"Return\")"],
        scanErr := none } =
      .ok [{ Command := "Execute", Value := "rofi -show drun", Modifier := ["modkey"],
             Key := "p" },
           { Command := "CloseWindow", Value := "", Modifier := ["modkey", "Shift"],
             Key := "q" },
           { Command := "Execute", Value := "alacritty", Modifier := ["modkey"],
             Key := "Return" }] ∧
    (List.range 3).map (fun i => rowTexts (buildTable
        [{ Command := "Execute", Value := "rofi -show drun", Modifier := ["modkey"],
           Key := "p" },
         { Command := "CloseWindow", Value := "", Modifier := ["modkey", "Shift"],
           Key := "q" },
         { Command := "Execute", Value := "alacritty", Modifier := ["modkey"],
           Key := "Return" }]) (i + 1)) =
      [[some "Execute rofi -show drun", some "modkey", some "p"],
       [some "Close Window", some "modkey, Shift", some "q"],
       [some "Execute alacritty", some "modkey", some "Return"]] ∧
    ¬ GroupedByCommand
        [{ Command := "Execute", Value := "rofi -show drun", Modifier := ["modkey"],
           Key := "p" },
         { Command := "CloseWindow", Value := "", Modifier := ["modkey", "Shift"],
           Key := "q" },
         { Command := "Execute", Value := "alacritty", Modifier := ["modkey"],
           Key := "Return" }] := by
  refine ⟨congrArg Except.ok (by decide), by decide, ?_⟩
  intro h
  have := h 0 1 2 _ _ _ (by decide) (by decide) rfl rfl rfl rfl
  revert this
  decide

/-- C17 fails on the code: two pairs of different commands of the table share
one description, because the entries of IncreaseMainCount and of
MoveWindowToPreviousWorkspace repeat the text of their neighbour. -/
theorem C17_descriptions_collide :
    descriptions.lookup "IncreaseMainCount" = some "Decrease Main Count" ∧
    descriptions.lookup "DecreaseMainCount" = some "Decrease Main Count" ∧
    "IncreaseMainCount" ≠ "DecreaseMainCount" ∧
    getDescription "IncreaseMainCount" "" = getDescription "DecreaseMainCount" "" ∧
    descriptions.lookup "MoveWindowToNextWorkspace" = some "Move Window To Next Workspace" ∧
    descriptions.lookup "MoveWindowToPreviousWorkspace" =
      some "Move Window To Next Workspace" ∧
    "MoveWindowToNextWorkspace" ≠ "MoveWindowToPreviousWorkspace" ∧
    getDescription "MoveWindowToNextWorkspace" "" =
      getDescription "MoveWindowToPreviousWorkspace" "" := by
  decide

/-- Apart from these two pairs, different commands of the table have
different descriptions. -/
theorem descriptions_collide_only_twice :
    ∀ p ∈ descriptions, ∀ q ∈ descriptions, p.1 ≠ q.1 →
      getDescription p.1 "" = getDescription q.1 "" →
      (p.1, q.1) ∈ [("IncreaseMainCount", "DecreaseMainCount"),
        ("DecreaseMainCount", "IncreaseMainCount"),
        ("MoveWindowToNextWorkspace", "MoveWindowToPreviousWorkspace"),
        ("MoveWindowToPreviousWorkspace", "MoveWindowToNextWorkspace")] := by
  decide

/-! ## Lines that lack the command or the value field -/

open regexp in
/-- The pattern matches at the start of every record whose command is a
non-empty word, whose value and key hold no line feed and whose modifier list
holds no `]`. -/
theorem matchItems_re_complete (w v m k z : List Char) (hne : w ≠ [])
    (hw : ∀ c ∈ w, isWord c = true) (hv : '\n' ∉ v) (hm : ']' ∉ m) (hk : '\n' ∉ k) :
    matchItems re (recordChars w v m k ++ z) ≠ none := by
  have c1 := reAfterValue_complete m k z hm hk
  cases h1 : matchItems reAfterValue (afterValueChars m k ++ z) with
  | none => exact absurd h1 c1
  | some r1 =>
    have c2 := lazyStar_complete isAny (matchItems reAfterValue) v _ r1
      (isAny_of_not_mem v hv) h1
    cases h2 : lazyStar isAny (matchItems reAfterValue) (v ++ (afterValueChars m k ++ z)) with
    | none => exact absurd h2 c2
    | some r2 =>
      obtain ⟨cap, caps, s⟩ := r2
      have e3 : matchItems (.capStarLazy isAny :: reAfterValue)
          (v ++ (afterValueChars m k ++ z)) = some (cap :: caps, s) := by
        show (lazyStar isAny (matchItems reAfterValue) _).map _ = _
        rw [h2]
        rfl
      have e2 : matchItems (.lit ", value: \"".data :: .capStarLazy isAny :: reAfterValue)
          (", value: \"".data ++ (v ++ (afterValueChars m k ++ z))) =
            some (cap :: caps, s) := by
        rw [matchItems_lit_append]; exact e3
      have e1 := matchItems_capPlus_run isWord _ w _ s (cap :: caps) hne hw
        (by intro d hd; simp at hd; subst hd; rfl) e2
      have e0 : recordChars w v m k ++ z = "(command: ".data ++
          (w ++ (", value: \"".data ++ (v ++ (afterValueChars m k ++ z)))) := by
        simp [recordChars, afterValueChars]
      rw [e0]
      show matchItems (.lit "(command: ".data :: _) _ ≠ none
      rw [matchItems_lit_append]
      have e1b : matchItems (.capPlus isWord :: .lit ", value: \"".data ::
          .capStarLazy isAny :: reAfterValue)
          (w ++ (", value: \"".data ++ (v ++ (afterValueChars m k ++ z)))) =
            some (w :: cap :: caps, s) := e1
      intro hn
      have hc : some (w :: cap :: caps, s) = none := e1b.symm.trans hn
      cases hc

/-- A place where the pattern matches makes the search succeed. -/
theorem findSubmatch_ne_nil (pre t : List Char) (h : regexp.matchItems re t ≠ none) :
    regexp.findSubmatch re (pre ++ t) ≠ [] := by
  induction pre with
  | nil =>
    cases hm : regexp.matchItems re t with
    | none => exact absurd hm h
    | some p =>
      rw [List.nil_append, findSubmatch_of_match t p.1 p.2 hm]
      simp
  | cons c p0 ih =>
    cases hm : regexp.matchItems re (c :: (p0 ++ t)) with
    | some p =>
      rw [List.cons_append, findSubmatch_of_match _ p.1 p.2 hm]
      simp
    | none =>
      have step : regexp.findSubmatch re (c :: (p0 ++ t)) = regexp.findSubmatch re (p0 ++ t) := by
        simp [regexp.findSubmatch, regexp.submatchAt, hm]
      rw [List.cons_append, step]
      exact ih

/-- A line that holds a record gives a KeyBind. -/
theorem extractLine_ne_nil_of_record (line : String) (pre w v m k z : List Char)
    (e : line.data = pre ++ (recordChars w v m k ++ z)) (hne : w ≠ [])
    (hw : ∀ c ∈ w, isWord c = true) (hv : '\n' ∉ v) (hm : ']' ∉ m) (hk : '\n' ∉ k) :
    extractLine line ≠ [] := by
  have h1 := findSubmatch_ne_nil pre _ (matchItems_re_complete w v m k z hne hw hv hm hk)
  rw [← e] at h1
  rcases findSubmatch_sound line.data with h0 | ⟨p2, w2, v2, m2, k2, z2, _, hf, _⟩
  · exact absurd h0 h1
  · rw [extractLine_of_findSubmatch line _ w2 v2 m2 k2 hf]
    simp

theorem not_mem_of_isAny (v : List Char) (h : ∀ c ∈ v, isAny c = true) : '\n' ∉ v := by
  intro hc
  have := h _ hc
  revert this
  decide

theorem not_mem_of_notRBracket (m : List Char) (h : ∀ c ∈ m, notRBracket c = true) :
    ']' ∉ m := by
  intro hc
  have := h _ hc
  revert this
  decide

/-- A KeyBind from the line that lacks the command field comes from a record
head nested before the closing bracket of its modifier list. -/
theorem head_of_lineWithoutCommand (v m k : String)
    (hv : '"' ∉ v.data) (hm : ']' ∉ m.data) (hk : '"' ∉ k.data)
    (h : extractLine (lineWithoutCommand v m k) ≠ []) :
    HoldsRecordHead (startWithoutCommand v m).data := by
  rcases findSubmatch_sound (lineWithoutCommand v m k).data with
    h0 | ⟨pre, w2, v2, m2, k2, post, e, _, hne, hw, hv2, hm2, _⟩
  · exact absurd (extractLine_of_no_match _ h0) h
  · have key := record_in_line_without_command ("(value: ".data) (v.data)
      (", modifier: ".data) (m.data) (", key: ".data) (k.data)
      (pre ++ ("(command: ".data ++ (w2 ++ ", value: ".data))) (v2) (m2) (k2) (post)
      (by decide) (by simp; omega) hv (by decide) hm (by decide) hk
      (by simpa [lineWithoutCommand, recordChars, String.data_append] using e)
    refine ⟨pre, w2, v2, m2, ?_, hne, hw, not_mem_of_isAny v2 hv2,
      not_mem_of_notRBracket m2 hm2⟩
    simpa [startWithoutCommand, recordHeadChars, String.data_append] using key

/-- A KeyBind from the line that lacks the value field comes from a record
head nested before the closing bracket of its modifier list. -/
theorem head_of_lineWithoutValue (w m k : String) (hw : ∀ c ∈ w.data, isWord c = true)
    (hm : ']' ∉ m.data) (hk : '"' ∉ k.data)
    (h : extractLine (lineWithoutValue w m k) ≠ []) :
    HoldsRecordHead (startWithoutValue w m).data := by
  have hw3 : ']' ∉ w.data := not_mem_of_isWord _ hw _ (by decide)
  rcases findSubmatch_sound (lineWithoutValue w m k).data with
    h0 | ⟨pre, w2, v2, m2, k2, post, e, _, hne, hw2, hv2, hm2, _⟩
  · exact absurd (extractLine_of_no_match _ h0) h
  · have key := record_in_line_without_value
      ("(command: ".data ++ (w.data ++ ", modifier: ".data))
      (", modifier: ".data) (m.data) (", key: ".data) (k.data)
      (pre ++ ("(command: ".data ++ (w2 ++ ", value: ".data))) (v2) (m2) (k2) (post)
      (by simp [hw3]) hm (by decide) hk
      (by simpa [lineWithoutValue, recordChars, String.data_append] using e)
    refine ⟨pre, w2, v2, m2, ?_, hne, hw2, not_mem_of_isAny v2 hv2,
      not_mem_of_notRBracket m2 hm2⟩
    simpa [startWithoutValue, recordHeadChars, String.data_append] using key

/-- A record head nested in the line that lacks the command field makes the
line give a KeyBind. -/
theorem lineWithoutCommand_of_head (v m k : String) (hkl : '\n' ∉ k.data)
    (h : HoldsRecordHead (startWithoutCommand v m).data) :
    extractLine (lineWithoutCommand v m k) ≠ [] := by
  obtain ⟨pre, w2, v2, m2, e, hne, hw, hv2, hm2⟩ := h
  apply extractLine_ne_nil_of_record _ pre w2 v2 m2 k.data [] _ hne hw hv2 hm2 hkl
  have e2 : (lineWithoutCommand v m k).data =
      (startWithoutCommand v m).data ++ ("], key: \"".data ++ (k.data ++ "\")".data)) := by
    simp [lineWithoutCommand, startWithoutCommand, String.data_append]
  rw [e2, e]
  simp [recordChars, recordHeadChars]

/-- A record head nested in the line that lacks the value field makes the
line give a KeyBind. -/
theorem lineWithoutValue_of_head (w m k : String) (hkl : '\n' ∉ k.data)
    (h : HoldsRecordHead (startWithoutValue w m).data) :
    extractLine (lineWithoutValue w m k) ≠ [] := by
  obtain ⟨pre, w2, v2, m2, e, hne, hw, hv2, hm2⟩ := h
  apply extractLine_ne_nil_of_record _ pre w2 v2 m2 k.data [] _ hne hw hv2 hm2 hkl
  have e2 : (lineWithoutValue w m k).data =
      (startWithoutValue w m).data ++ ("], key: \"".data ++ (k.data ++ "\")".data)) := by
    simp [lineWithoutValue, startWithoutValue, String.data_append]
  rw [e2, e]
  simp [recordChars, recordHeadChars]

theorem extractLine_lineWithoutCommand_label (v m k : String)
    (hv : '"' ∉ v.data) (hm : ']' ∉ m.data)
    (hlab : ¬ ("\", modifier: [".data <:+: m.data)) (hk : '"' ∉ k.data) :
    extractLine (lineWithoutCommand v m k) = [] := by
  apply extractLine_of_no_match
  apply findSubmatch_eq_nil_of_no_record
  intro pre w2 v2 m2 k2 post h
  exact no_record_without_command_label ("(value: ".data)
    (v.data) (", modifier: ".data) (m.data) (", key: ".data)
    (k.data) (pre ++ ("(command: ".data ++ (w2 ++ ", value: ".data)))
    (v2) (m2) (k2) (post)
    (by decide) (by simp; omega) hv (by decide) (by decide)
    (fun s t e => hlab ⟨s, t, by rw [e]; simp⟩) hm (by decide) hk
    (by simpa [lineWithoutCommand, recordChars, String.data_append] using h)

theorem extractLine_lineWithoutValue_label (w m k : String)
    (hw : ∀ c ∈ w.data, isWord c = true) (hm : ']' ∉ m.data)
    (hlab : ¬ ("\", modifier: [".data <:+: m.data)) (hk : '"' ∉ k.data) :
    extractLine (lineWithoutValue w m k) = [] := by
  apply extractLine_of_no_match
  apply findSubmatch_eq_nil_of_no_record
  intro pre w2 v2 m2 k2 post h
  have hw1 : '"' ∉ w.data := not_mem_of_isWord _ hw _ (by decide)
  have hw3 : ']' ∉ w.data := not_mem_of_isWord _ hw _ (by decide)
  exact no_record_without_value_label ("(command: ".data ++ (w.data ++ ", modifier: ".data))
    (", modifier: ".data) (m.data) (", key: ".data)
    (k.data) (pre ++ ("(command: ".data ++ (w2 ++ ", value: ".data)))
    (v2) (m2) (k2) (post)
    (by simp [hw3]) (by simp [hw1])
    (fun s t e => hlab ⟨s, t, by rw [e]; simp⟩) hm (by decide) hk
    (by simpa [lineWithoutValue, recordChars, String.data_append] using h)

/-- C5 as stated fails for the lines that lack the command or the value field:
with the head of a complete record nested in the modifier list, the fields are
well formed and the line still gives a KeyBind. -/
theorem C5_counterexample :
    lineWithoutCommand "" "(command: CloseWindow, value: \"\", modifier: [\"modkey\"" "q" =
      "(value: \"\", modifier: [(command: CloseWindow, value: \"\", modifier: [\"modkey\"], key: \"q\")" ∧
    lineWithoutValue "Execute" "(command: CloseWindow, value: \"\", modifier: [\"modkey\"" "q" =
      "(command: Execute, modifier: [(command: CloseWindow, value: \"\", modifier: [\"modkey\"], key: \"q\")" ∧
    (∀ c ∈ "Execute".data, isWord c = true) ∧ '"' ∉ "".data ∧
    ']' ∉ "(command: CloseWindow, value: \"\", modifier: [\"modkey\"".data ∧ '"' ∉ "q".data ∧
    extractLine
        (lineWithoutCommand "" "(command: CloseWindow, value: \"\", modifier: [\"modkey\"" "q") =
      [{ Command := "CloseWindow", Value := "", Modifier := ["modkey"], Key := "q" }] ∧
    extractLine
        (lineWithoutValue "Execute" "(command: CloseWindow, value: \"\", modifier: [\"modkey\""
          "q") =
      [{ Command := "CloseWindow", Value := "", Modifier := ["modkey"], Key := "q" }] := by
  decide

/-- C5 amended: a line without a match adds no KeyBind and raises no error,
and the scan goes on with the lines after it; a record line without its
closing parenthesis, its modifier field or its key field is such a line; a
record line without its command or its value field is such a line exactly
when no record head `(command: W, value: "V", modifier: [` is nested before
the closing bracket of its modifier list, in particular when the modifier
list does not hold the text `", modifier: [`. -/
theorem C5_lines_without_match (bad : String) (pre post : List String)
    (w v m k : String) (h : regexp.FindStringSubmatch re bad = [])
    (hw : ∀ c ∈ w.data, isWord c = true) (hv : '"' ∉ v.data) (hm : ']' ∉ m.data)
    (hk : '"' ∉ k.data) :
    extractLine bad = [] ∧
    parseLines (pre ++ [bad] ++ post) = parseLines pre ++ parseLines post ∧
    parseConfig { openErr := none, lines := pre ++ [bad] ++ post, scanErr := none } =
      .ok (parseLines pre ++ parseLines post) ∧
    extractLine (lineWithoutParen w v m k) = [] ∧
    extractLine (lineWithoutModifier w v k) = [] ∧
    extractLine (lineWithoutKey w v m) = [] ∧
    (¬ HoldsRecordHead (startWithoutCommand v m).data →
      extractLine (lineWithoutCommand v m k) = []) ∧
    (¬ HoldsRecordHead (startWithoutValue w m).data →
      extractLine (lineWithoutValue w m k) = []) ∧
    ('\n' ∉ k.data → HoldsRecordHead (startWithoutCommand v m).data →
      extractLine (lineWithoutCommand v m k) ≠ []) ∧
    ('\n' ∉ k.data → HoldsRecordHead (startWithoutValue w m).data →
      extractLine (lineWithoutValue w m k) ≠ []) ∧
    (¬ ("\", modifier: [".data <:+: m.data) →
      extractLine (lineWithoutCommand v m k) = [] ∧ extractLine (lineWithoutValue w m k) = []) := by
  have hbad : extractLine bad = [] := by simp [extractLine, h]
  have hcat : parseLines (pre ++ [bad] ++ post) = parseLines pre ++ parseLines post := by
    simp [parseLines_eq, hbad]
  refine ⟨hbad, hcat, ?_, extractLine_lineWithoutParen w v m k hw hv hm hk,
    extractLine_lineWithoutModifier w v k hw hv hk, extractLine_lineWithoutKey w v m hw hv hm,
    ?_, ?_, fun hkl hh => lineWithoutCommand_of_head v m k hkl hh,
    fun hkl hh => lineWithoutValue_of_head w m k hkl hh,
    fun hlab => ⟨extractLine_lineWithoutCommand_label v m k hv hm hlab hk,
      extractLine_lineWithoutValue_label w m k hw hm hlab hk⟩⟩
  · simp only [parseConfig]
    exact congrArg Except.ok hcat
  · intro hh
    by_contra hne
    exact hh (head_of_lineWithoutCommand v m k hv hm hk hne)
  · intro hh
    by_contra hne
    exact hh (head_of_lineWithoutValue w m k hw hm hk hne)

/-- Witness of C5: a line of surrounding RON syntax between two records, and
the fields of Scenario A. -/
theorem C5_lines_without_match_witness :
    extractLine "    keybind: [" = [] ∧
    parseLines (["(command: CloseWindow, value: \"\", modifier: [], key: \"q\")"] ++
        ["    keybind: ["] ++ ["(command: SoftReload, value: \"\", modifier: [], key: \"r\")"]) =
      parseLines ["(command: CloseWindow, value: \"\", modifier: [], key: \"q\")"] ++
        parseLines ["(command: SoftReload, value: \"\", modifier: [], key: \"r\")"] ∧
    parseConfig { openErr := none,
                  lines := ["(command: CloseWindow, value: \"\", modifier: [], key: \"q\")"] ++
                    ["    keybind: ["] ++
                    ["(command: SoftReload, value: \"\", modifier: [], key: \"r\")"],
                  scanErr := none } =
      .ok (parseLines ["(command: CloseWindow, value: \"\", modifier: [], key: \"q\")"] ++
        parseLines ["(command: SoftReload, value: \"\", modifier: [], key: \"r\")"]) ∧
    extractLine (lineWithoutParen "Execute" "rofi -show drun" "\"modkey\"" "space") = [] ∧
    extractLine (lineWithoutModifier "Execute" "rofi -show drun" "space") = [] ∧
    extractLine (lineWithoutKey "Execute" "rofi -show drun" "\"modkey\"") = [] ∧
    extractLine (lineWithoutCommand "rofi -show drun" "\"modkey\"" "space") = [] ∧
    extractLine (lineWithoutValue "Execute" "\"modkey\"" "space") = [] := by
  have h := C5_lines_without_match "    keybind: ["
    ["(command: CloseWindow, value: \"\", modifier: [], key: \"q\")"]
    ["(command: SoftReload, value: \"\", modifier: [], key: \"r\")"]
    "Execute" "rofi -show drun" "\"modkey\"" "space"
    (by decide) (by decide) (by decide) (by decide) (by decide)
  exact ⟨h.1, h.2.1, h.2.2.1, h.2.2.2.1, h.2.2.2.2.1, h.2.2.2.2.2.1,
    (h.2.2.2.2.2.2.2.2.2.2 (by decide)).1, (h.2.2.2.2.2.2.2.2.2.2 (by decide)).2⟩
